import Mathlib

/-!
Verification of the Brandes-Koepf horizontal coordinate assignment module
(src/lib/position/bk.js): type-1 conflict detection, vertical alignment into
blocks, and horizontal compaction.

The JavaScript module is shallowly embedded.  Node ids are modelled as natural
numbers equipped with their usual order; the only place the id order matters is
the canonicalization inside addType1Conflict and hasType1Conflict, which keeps
the smaller id first exactly as the source keeps the lexically smaller string
key first.  Node labels are records of the mutable layout attributes; the
graph is a record of the node id list, the label map and the predecessor map.
Mutation of node labels is modelled by returning an updated graph; the
conflict set object conflicts[v][w] = true is modelled as a curried boolean
function that is false by default.  JavaScript numbers are modelled as
rationals, and the order index stored per node as a natural number (prevIdx,
which starts at -1, is an integer).  The unbounded recursion of placeBlock and
its do-while loop over an alignment cycle are modelled with an explicit fuel
that is large enough for every well-formed input.
-/

attribute [local semireducible] Rat.add Rat.sub Rat.mul Rat.inv

/-- Node identifiers (string keys in the source, modelled as naturals with
their usual order standing in for the lexicographic order on keys). -/
abbrev NodeId := Nat

/-- Mutable layout attributes carried by each node (bk.js reads rank, order,
dummy and width, and writes root, align and x; x is initially undefined, hence
an option). -/
structure NodeLabel where
  rank : Nat
  order : Nat
  dummy : Bool
  width : ℚ
  root : NodeId
  align : NodeId
  x : Option ℚ

/-- The graph interface used by bk.js: enumerate node ids, read a node label,
enumerate predecessors of a node. -/
structure Graph where
  nodeIds : List NodeId
  label : NodeId → NodeLabel
  preds : NodeId → List NodeId

/-- Write the align field of node v (models wLab.align = ...). -/
def Graph.setAlign (g : Graph) (v a : NodeId) : Graph :=
  ⟨g.nodeIds, fun u => if u = v then { g.label u with align := a } else g.label u, g.preds⟩

/-- Write both the align and the root field of node v to r (models
vLab.align = vLab.root = r, and the initialization root = align = self). -/
def Graph.setAlignRoot (g : Graph) (v r : NodeId) : Graph :=
  ⟨g.nodeIds, fun u => if u = v then { g.label u with align := r, root := r } else g.label u,
    g.preds⟩

/-- Write the x field of node v (the only label write performed by
horizontalCompaction). -/
def Graph.setX (g : Graph) (v : NodeId) (q : Option ℚ) : Graph :=
  ⟨g.nodeIds, fun u => if u = v then { g.label u with x := q } else g.label u, g.preds⟩

/-- The conflict set object conflicts[v][w] = true of bk.js, as a curried
boolean membership function (absent key = false). -/
def ConflictSet : Type := NodeId → NodeId → Bool

/-- The fresh empty object var conflicts = \x7b\x7d. -/
def emptyConflicts : ConflictSet := fun _ _ => false

/-- The canonicalization both addType1Conflict and hasType1Conflict perform:
if (v > w) swap, so the smaller id always comes first. -/
def canonPair (v w : NodeId) : NodeId × NodeId :=
  if w < v then (w, v) else (v, w)

/-- bk.js addType1Conflict: swap so the smaller id comes first, then record
conflicts[v][w] = true. -/
def addType1Conflict (conflicts : ConflictSet) (v w : NodeId) : ConflictSet :=
  fun a b => if a = (canonPair v w).1 ∧ b = (canonPair v w).2 then true else conflicts a b

/-- bk.js hasType1Conflict: swap so the smaller id comes first, then test
membership. -/
def hasType1Conflict (conflicts : ConflictSet) (v w : NodeId) : Bool :=
  conflicts (canonPair v w).1 (canonPair v w).2

/-- bk.js findOtherInnerSegmentNode: if v is a dummy, find a dummy
predecessor (the other endpoint of an inner segment ending at v). -/
def findOtherInnerSegmentNode (g : Graph) (v : NodeId) : Option NodeId :=
  if (g.label v).dummy then (g.preds v).find? (fun u => (g.label u).dummy) else none

/-- The mutable scan state of visitLayer in collectType1Conflicts: k0 is the
order of the previous inner-segment boundary, scanPos the first unprocessed
index of the current layer, conflicts the accumulator. -/
structure ScanState where
  k0 : Nat
  scanPos : Nat
  conflicts : ConflictSet

/-- The inner _.each over g.predecessors(scanNode) in collectType1Conflicts:
record a conflict for each predecessor whose order lies strictly outside
[k0, k1], unless both endpoints are dummies. -/
def scanNodeConflicts (g : Graph) (k0 k1 : Nat) (conflicts : ConflictSet)
    (scanNode : NodeId) : ConflictSet :=
  (g.preds scanNode).foldl
    (fun conflicts u =>
      if ((g.label u).order < k0 ∨ k1 < (g.label u).order) ∧
          ¬((g.label u).dummy = true ∧ (g.label scanNode).dummy = true) then
        addType1Conflict conflicts u scanNode
      else conflicts)
    conflicts

/-- The _.each over layer.slice(scanPos, i+1) in collectType1Conflicts:
re-scan the pending nodes against the window [k0, k1]. -/
def rescan (g : Graph) (k0 k1 : Nat) (conflicts : ConflictSet)
    (pending : List NodeId) : ConflictSet :=
  pending.foldl (scanNodeConflicts g k0 k1) conflicts

/-- One step of the _.each(layer, function(v, i)) loop of visitLayer: find
the inner-segment boundary for v, and when v is incident on an inner segment
or is the last node of the layer, re-scan layer.slice(scanPos, i+1) and
advance the window. -/
def visitNode (g : Graph) (layer : List NodeId) (prevLayerLength : Nat)
    (lastNode : Option NodeId) (st : ScanState) (iv : Nat × NodeId) : ScanState :=
  let w := findOtherInnerSegmentNode g iv.2
  let k1 := match w with
    | some w => (g.label w).order
    | none => prevLayerLength
  if w.isSome ∨ some iv.2 = lastNode then
    ⟨k1, iv.1 + 1,
      rescan g st.k0 k1 st.conflicts ((layer.drop st.scanPos).take (iv.1 + 1 - st.scanPos))⟩
  else st

/-- bk.js visitLayer: scan a layer left to right against the previous layer,
threading the conflict accumulator. -/
def visitLayer (g : Graph) (conflicts : ConflictSet) (prevLayer layer : List NodeId) :
    ConflictSet :=
  (layer.enum.foldl (visitNode g layer prevLayer.length layer.getLast?)
    ⟨0, 0, conflicts⟩).conflicts

/-- bk.js collectType1Conflicts: _.reduce(layering, visitLayer) visits each
consecutive pair of layers and returns the accumulated conflict set. -/
def collectType1Conflicts (g : Graph) (layering : List (List NodeId)) : ConflictSet :=
  match layering with
  | [] => emptyConflicts
  | first :: rest =>
    (rest.foldl (fun acc layer => (visitLayer g acc.1 acc.2 layer, layer))
      (emptyConflicts, first)).1

/-- collectType1Conflicts with the graph it was given passed through: the
source function only reads node labels and predecessor lists, so the graph
component of the result is the input graph. -/
def collectType1ConflictsRun (g : Graph) (layering : List (List NodeId)) :
    Graph × ConflictSet :=
  (g, collectType1Conflicts g layering)

/-- The value the code assigns to k1 for a scanned node v: the order of the
other endpoint of an inner segment incident on v when there is one, and
prevLayer.length otherwise. -/
def k1Val (g : Graph) (prevLayerLength : Nat) (v : NodeId) : Nat :=
  match findOtherInnerSegmentNode g v with
  | some w => (g.label w).order
  | none => prevLayerLength

/-- Concrete graph for exercising the conflict detector: an inner segment
between the dummies 0 and 3 joining layer [0, 1] and layer [2, 3], and a
regular edge from 1 to 2 that crosses it. -/
def Gc5 : Graph :=
  ⟨[0, 1, 2, 3],
    fun v =>
      if v = 0 then ⟨0, 0, true, 0, 0, 0, none⟩
      else if v = 1 then ⟨0, 1, false, 0, 0, 0, none⟩
      else if v = 2 then ⟨1, 0, false, 0, 0, 0, none⟩
      else ⟨1, 1, true, 0, 0, 0, none⟩,
    fun v => if v = 3 then [0] else if v = 2 then [1] else []⟩

/-- Concrete graph whose single second-layer node 1 is a dummy with a dummy
predecessor 0, so the last node of the layer is itself incident on an inner
segment. -/
def Gc6 : Graph :=
  ⟨[0, 1],
    fun v =>
      if v = 0 then ⟨0, 0, true, 0, 0, 0, none⟩
      else ⟨1, 0, true, 0, 0, 0, none⟩,
    fun v => if v = 1 then [0] else []⟩

/-- One iteration of the for loop over the median candidate indices in
verticalAlignment: read w = ws[i]; if v has not aligned yet, the order of w is
strictly beyond prevIdx and (v, w) has no type-1 conflict, then set
w.align = v, v.align = v.root = w.root and advance prevIdx to the order of w.
The state is the graph together with prevIdx. -/
def tryCandidate (conflicts : ConflictSet) (v : NodeId) (ws : List NodeId)
    (st : Graph × Int) (i : Nat) : Graph × Int :=
  let g := st.1
  let w := ws.getD i 0
  let wLab := g.label w
  if (g.label v).align = v ∧ st.2 < (wLab.order : Int) ∧
      ¬hasType1Conflict conflicts v w = true then
    ((g.setAlign w v).setAlignRoot v wLab.root, (wLab.order : Int))
  else st

/-- The body of the _.each(layer, ...) loop of verticalAlignment for one node
v: when the neighbor list is nonempty, try the median indices
floor((len-1)/2) .. ceil((len-1)/2), which for natural division are
(len-1)/2 .. len/2. -/
def alignNode (conflicts : ConflictSet) (neighborFn : NodeId → List NodeId)
    (st : Graph × Int) (v : NodeId) : Graph × Int :=
  let ws := neighborFn v
  if ws.length ≠ 0 then
    (List.range' ((ws.length - 1) / 2) (ws.length / 2 + 1 - (ws.length - 1) / 2)).foldl
      (tryCandidate conflicts v ws) st
  else st

/-- bk.js verticalAlignment: initialize every node as a singleton block
(root = align = self), then process layers in order, each with prevIdx
starting at -1. -/
def verticalAlignment (g : Graph) (layering : List (List NodeId))
    (conflicts : ConflictSet) (neighborFn : NodeId → List NodeId) : Graph :=
  let g0 := g.nodeIds.foldl (fun g v => g.setAlignRoot v v) g
  layering.foldl
    (fun g layer => (layer.foldl (alignNode conflicts neighborFn) (g, -1)).1) g0

/-- A record of one merge performed by verticalAlignment: the pair (v, w)
together with the value of v.align and of prevIdx at the moment of the merge
and the order of w. -/
structure MergeRec where
  v : NodeId
  w : NodeId
  vAlignPre : NodeId
  prevIdxPre : Int
  wOrder : Nat
deriving DecidableEq

/-- tryCandidate instrumented with the list of merges performed. -/
def tryCandidateRec (conflicts : ConflictSet) (v : NodeId) (ws : List NodeId)
    (st : Graph × Int × List MergeRec) (i : Nat) : Graph × Int × List MergeRec :=
  let g := st.1
  let w := ws.getD i 0
  let wLab := g.label w
  if (g.label v).align = v ∧ st.2.1 < (wLab.order : Int) ∧
      ¬hasType1Conflict conflicts v w = true then
    ((g.setAlign w v).setAlignRoot v wLab.root,
      (wLab.order : Int), st.2.2 ++ [⟨v, w, (g.label v).align, st.2.1, wLab.order⟩])
  else st

/-- alignNode instrumented with the list of merges performed. -/
def alignNodeRec (conflicts : ConflictSet) (neighborFn : NodeId → List NodeId)
    (st : Graph × Int × List MergeRec) (v : NodeId) : Graph × Int × List MergeRec :=
  let ws := neighborFn v
  if ws.length ≠ 0 then
    (List.range' ((ws.length - 1) / 2) (ws.length / 2 + 1 - (ws.length - 1) / 2)).foldl
      (tryCandidateRec conflicts v ws) st
  else st

/-- verticalAlignment instrumented with the list of merges performed. -/
def verticalAlignmentRec (g : Graph) (layering : List (List NodeId))
    (conflicts : ConflictSet) (neighborFn : NodeId → List NodeId) :
    Graph × List MergeRec :=
  let g0 := g.nodeIds.foldl (fun g v => g.setAlignRoot v v) g
  layering.foldl
    (fun acc layer =>
      let s := layer.foldl (alignNodeRec conflicts neighborFn) (acc.1, -1, acc.2)
      (s.1, s.2.2))
    (g0, [])

/-- Concrete two-node graph for exercising verticalAlignment: node 1 in the
second layer has the single neighbor 0 in the first layer. -/
def Gc3 : Graph :=
  ⟨[0, 1],
    fun v => if v = 0 then ⟨0, 0, false, 0, 0, 0, none⟩ else ⟨1, 0, false, 0, 0, 0, none⟩,
    fun _ => []⟩

/-- The neighbor function for Gc3: predecessors ordered by position. -/
def nbf3 : NodeId → List NodeId := fun v => if v = 1 then [0] else []

/-- Compaction options after _.defaults has run: both separations present. -/
structure Options where
  nodesep : ℚ
  edgesep : ℚ

/-- The options object as supplied by the caller: either key may be absent. -/
structure OptionsIn where
  nodesep : Option ℚ
  edgesep : Option ℚ

/-- The effect of _.defaults(options, ...) with nodesep 50 and edgesep 10:
absent keys are filled with the defaults, present keys are kept. -/
def applyDefaults (o : OptionsIn) : Options :=
  ⟨o.nodesep.getD 50, o.edgesep.getD 10⟩

/-- bk.js helper x(g, v): the x field of the label of v. -/
def x (g : Graph) (v : NodeId) : Option ℚ := (g.label v).x

/-- bk.js helper pos(g, v): the order field of the label of v. -/
def pos (g : Graph) (v : NodeId) : Nat := (g.label v).order

/-- bk.js helper root(g, v): the root field of the label of v. -/
def root (g : Graph) (v : NodeId) : NodeId := (g.label v).root

/-- bk.js helper align(g, v): the align field of the label of v. -/
def align (g : Graph) (v : NodeId) : NodeId := (g.label v).align

/-- bk.js helper pred(g, layering, v): the node before v in its layer,
layering[rank][order - 1]. -/
def pred (g : Graph) (layering : List (List NodeId)) (v : NodeId) : NodeId :=
  (layering.getD (g.label v).rank []).getD ((g.label v).order - 1) 0

/-- bk.js sep(g, options, v, u): half widths of both nodes plus half of
edgesep or nodesep on each side depending on whether that side is a dummy. -/
def sep (g : Graph) (options : Options) (v u : NodeId) : ℚ :=
  let nodeSep := options.nodesep / 2
  let edgeSep := options.edgesep / 2
  (g.label u).width / 2 +
    (if (g.label u).dummy then edgeSep else nodeSep) +
    (if (g.label v).dummy then edgeSep else nodeSep) +
    (g.label v).width / 2

/-- The state threaded through horizontalCompaction: the graph (for the x
fields) and the shift and sink tables.  shift starts at positive infinity for
every id, modelled as none. -/
structure HCState where
  g : Graph
  shift : NodeId → Option ℚ
  sink : NodeId → NodeId

/-- Pointwise update of a table keyed by node id. -/
def updf {α : Type _} (f : NodeId → α) (k : NodeId) (a : α) : NodeId → α :=
  fun q => if q = k then a else f q

/-- Math.min against a shift entry that may still be positive infinity
(none). -/
def minShift (cur : Option ℚ) (q : ℚ) : Option ℚ :=
  match cur with
  | none => some q
  | some c => some (min c q)

/-- The body of the do-while loop of placeBlock for the current member w of
the block rooted at v: when w has an in-layer predecessor, place the root u
of that predecessor first, inherit a sink when none is inherited yet, then
either record a deferred shift (different sinks) or apply the separation
constraint directly (same sink). -/
def placeBlockStep (layering : List (List NodeId)) (options : Options)
    (pb : HCState → NodeId → HCState) (st : HCState) (v w : NodeId) : HCState :=
  if 0 < pos st.g w then
    let u := root st.g (pred st.g layering w)
    let st2 := pb st u
    let st3 :=
      if st2.sink v = v then ⟨st2.g, st2.shift, updf st2.sink v (st2.sink u)⟩ else st2
    let delta := sep st3.g options w u
    if st3.sink v ≠ st3.sink u then
      ⟨st3.g,
        updf st3.shift (st3.sink u)
          (minShift (st3.shift (st3.sink u))
            ((x st3.g v).getD 0 - (x st3.g u).getD 0 - delta)),
        st3.sink⟩
    else
      ⟨st3.g.setX v (some (max ((x st3.g v).getD 0) ((x st3.g u).getD 0 + delta))),
        st3.shift, st3.sink⟩
  else st

/-- The do-while loop of placeBlock, walking the alignment cycle of the block
rooted at v.  pb is the recursive placeBlock call (one fuel level down); the
loop has its own fuel, which on well-formed blocks is never exhausted because
the align fields cycle back to v. -/
def placeBlockLoop (layering : List (List NodeId)) (options : Options)
    (pb : HCState → NodeId → HCState) :
    Nat → HCState → NodeId → NodeId → HCState
  | 0, st, _, _ => st
  | n + 1, st, v, w =>
    let st1 := placeBlockStep layering options pb st v w
    let w2 := align st1.g w
    if w2 = v then st1 else placeBlockLoop layering options pb n st1 v w2

/-- bk.js placeBlock: memoized on x being defined; set x to 0, then walk the
block cycle applying the separation constraints against each member's
in-layer predecessor block. -/
def placeBlock (layering : List (List NodeId)) (options : Options) :
    Nat → HCState → NodeId → HCState
  | 0, st, _ => st
  | fuel + 1, st, v =>
    if (x st.g v).isSome then st
    else
      let st2 : HCState := ⟨st.g.setX v (some 0), st.shift, st.sink⟩
      placeBlockLoop layering options (placeBlock layering options fuel)
        (st2.g.nodeIds.length + 1) st2 v v

/-- bk.js horizontalCompaction: apply the option defaults, initialize the
sink and shift tables, place every block root, then assign every node the x
of its root plus the shift of the sink of its root when that is finite.  The
result is the mutated graph together with the options object after
_.defaults has filled it (the source mutates both in place). -/
def horizontalCompaction (g : Graph) (layering : List (List NodeId))
    (optionsIn : Option OptionsIn) : Graph × Options :=
  let options := applyDefaults (optionsIn.getD ⟨none, none⟩)
  let st0 : HCState := ⟨g, fun _ => none, fun v => v⟩
  let st1 := g.nodeIds.foldl
    (fun st v =>
      if root st.g v = v then placeBlock layering options (g.nodeIds.length + 1) st v
      else st)
    st0
  let g3 := g.nodeIds.foldl
    (fun gg v =>
      let r := root gg v
      let gg2 := gg.setX v (x gg r)
      match st1.shift (st1.sink r) with
      | some s => gg2.setX v (some ((x gg2 v).getD 0 + s))
      | none => gg2)
    st1.g
  (g3, options)

/-- Reset the transient x field of every node, leaving every other field in
place (the state from which a second compaction run starts). -/
def clearX (g : Graph) : Graph :=
  ⟨g.nodeIds, fun v => { g.label v with x := none }, g.preds⟩

/-- Concrete compaction input: nodes 0 and 1 form a block rooted at 0 (node 0
in the first layer above node 1), node 2 is a singleton block to the right of
node 1 in the second layer.  Node 0 has width 0 while its block member node 1
has width 200, so the separation the code computes for the pair (2, root 0)
is far smaller than the separation required between 2 and its actual
in-layer predecessor 1. -/
def Gc1 : Graph :=
  ⟨[0, 1, 2],
    fun v =>
      if v = 0 then ⟨0, 0, false, 0, 0, 1, none⟩
      else if v = 1 then ⟨1, 0, false, 200, 0, 0, none⟩
      else ⟨1, 1, false, 10, 2, 2, none⟩,
    fun _ => []⟩

/-- Concrete single-node graph with x initially undefined. -/
def Gc8 : Graph :=
  ⟨[0], fun _ => ⟨0, 0, false, 1, 0, 0, none⟩, fun _ => []⟩

/-- The member list of a block chain given as root and tail. -/
def chainMembers (c : NodeId × List NodeId) : List NodeId := c.1 :: c.2

/-- ChainLinks al r cur t: starting from the member cur, the remaining
members are t in order, each align points to the next, and the align of the
final member points back to the root r. -/
def ChainLinks (al : NodeId → NodeId) (r : NodeId) : NodeId → List NodeId → Prop
  | cur, [] => al cur = r
  | cur, b :: t => al cur = b ∧ ChainLinks al r b t

/-- A chain (r, t) is a well-formed block for the given align and root maps:
align walks r :: t in order and cycles back to r, and every member's root
is r. -/
def ChainOk (al ro : NodeId → NodeId) (c : NodeId × List NodeId) : Prop :=
  ChainLinks al c.1 c.1 c.2 ∧ ∀ n ∈ chainMembers c, ro n = c.1

/-- The block-structure invariant of vertical alignment: the chain member
lists partition the node list P, and every chain is well formed. -/
def CoreInv (g : Graph) (P : List NodeId) (chains : List (NodeId × List NodeId)) : Prop :=
  ((chains.map chainMembers).flatten).Perm P ∧
    ∀ c ∈ chains, ChainOk (align g) (root g) c

/-- Graph exercising vertical alignment end to end: layer [0] above layer
[1, 2], where both 1 and 2 have the single neighbor 0; node 3 belongs to the
graph but to no layer. -/
def Gc2 : Graph :=
  ⟨[0, 1, 2, 3],
    fun v =>
      if v = 0 then ⟨0, 0, false, 0, 0, 0, none⟩
      else if v = 1 then ⟨1, 0, false, 0, 0, 0, none⟩
      else if v = 2 then ⟨1, 1, false, 0, 0, 0, none⟩
      else ⟨2, 0, false, 0, 0, 0, none⟩,
    fun _ => []⟩

/-- The neighbor function for Gc2: nodes 1 and 2 both propose the single
neighbor 0. -/
def nbf2 : NodeId → List NodeId := fun v => if v = 1 ∨ v = 2 then [0] else []

/-- The size of the block of v as read off the root fields: the number of
nodes of P whose root agrees with the root of v. -/
def blockSize (g : Graph) (P : List NodeId) (v : NodeId) : Nat :=
  (P.filter (fun u => root g u == root g v)).length

/-- The no-inner-segment property of a conflict set with respect to a fixed
graph: no recorded pair has both endpoints dummy. -/
def NoInnerPair (g : Graph) (c : ConflictSet) : Prop :=
  ∀ a b, hasType1Conflict c a b = true →
    ¬((g.label a).dummy = true ∧ (g.label b).dummy = true)

/-- The at-merge-time facts recorded for every merge verticalAlignment
performs: the pair had no recorded conflict, v had not aligned yet, and the
order of w was strictly beyond prevIdx. -/
def MergeOk (conflicts : ConflictSet) (m : MergeRec) : Prop :=
  hasType1Conflict conflicts m.v m.w = false ∧ m.vAlignPre = m.v ∧
    m.prevIdxPre < (m.wOrder : Int)

/-- The invariant threaded through the alignment passes: some chain list
witnesses the block structure over P; nodes in U are untouched singletons;
nodes in D are last in their chain; nodes of the previous layer that are no
longer last have order at most prevIdx. -/
structure LInv (g : Graph) (P prevLayer : List NodeId) (U D : NodeId → Prop)
    (p : Int) : Prop where
  core : ∃ chains, CoreInv g P chains
  untouched : ∀ n, U n → align g n = n ∧ root g n = n
  lasts : ∀ n, D n → align g n = root g n
  prevBound : ∀ n ∈ prevLayer, align g n ≠ root g n → ((g.label n).order : Int) ≤ p

theorem canonPair_comm (v w : NodeId) : canonPair v w = canonPair w v := by
  unfold canonPair
  rcases lt_trichotomy v w with h | h | h
  · rw [if_neg (asymm h), if_pos h]
  · subst h; rfl
  · rw [if_pos h, if_neg (asymm h)]

theorem hasType1Conflict_comm (c : ConflictSet) (v w : NodeId) :
    hasType1Conflict c v w = hasType1Conflict c w v := by
  unfold hasType1Conflict
  rw [canonPair_comm]

/-- Claim C4: the conflict set is symmetric under canonicalization: for every
conflict set built from any sequence of addType1Conflict calls and for every
pair of ids, hasType1Conflict gives the same answer on (v, w) and (w, v),
because both store and lookup put the smaller id first. -/
theorem claimC4_conflict_symmetric (adds : List (NodeId × NodeId)) (v w : NodeId) :
    hasType1Conflict
        (adds.foldl (fun c p => addType1Conflict c p.1 p.2) emptyConflicts) v w =
      hasType1Conflict
        (adds.foldl (fun c p => addType1Conflict c p.1 p.2) emptyConflicts) w v :=
  hasType1Conflict_comm _ v w

/-- Claim C9: collectType1Conflicts has no side effects on the graph: every
node label field and the graph structure are unchanged by the call, and the
only output is the returned conflict set value. -/
theorem claimC9_no_side_effects (g : Graph) (layering : List (List NodeId)) :
    (∀ v, ((collectType1ConflictsRun g layering).1.label v) = g.label v) ∧
      (collectType1ConflictsRun g layering).1.nodeIds = g.nodeIds ∧
      (∀ v, (collectType1ConflictsRun g layering).1.preds v = g.preds v) ∧
      (collectType1ConflictsRun g layering).2 = collectType1Conflicts g layering :=
  ⟨fun _ => rfl, rfl, fun _ => rfl, rfl⟩

theorem foldl_inv {α β : Type _} (P : β → Prop) (f : β → α → β)
    (hf : ∀ b a, P b → P (f b a)) :
    ∀ (l : List α) (b : β), P b → P (l.foldl f b) := by
  intro l
  induction l with
  | nil => intro b hb; exact hb
  | cons a l ih => intro b hb; exact ih (f b a) (hf b a hb)

theorem canonPair_cases (a b : NodeId) :
    canonPair a b = (a, b) ∨ canonPair a b = (b, a) := by
  unfold canonPair
  by_cases h : b < a
  · exact Or.inr (if_pos h)
  · exact Or.inl (if_neg h)

theorem canonPair_eq_unordered {a b v w : NodeId} (h : canonPair a b = canonPair v w) :
    (a = v ∧ b = w) ∨ (a = w ∧ b = v) := by
  rcases canonPair_cases a b with h1 | h1 <;> rcases canonPair_cases v w with h2 | h2 <;>
    rw [h1, h2] at h <;> rw [Prod.mk.injEq] at h
  · exact Or.inl h
  · exact Or.inr h
  · exact Or.inr ⟨h.2, h.1⟩
  · exact Or.inl ⟨h.2, h.1⟩

theorem hasType1Conflict_add (c : ConflictSet) (v w a b : NodeId) :
    hasType1Conflict (addType1Conflict c v w) a b = true ↔
      hasType1Conflict c a b = true ∨ canonPair a b = canonPair v w := by
  unfold hasType1Conflict addType1Conflict
  by_cases h : (canonPair a b).1 = (canonPair v w).1 ∧ (canonPair a b).2 = (canonPair v w).2
  · rw [if_pos h]
    simp only [true_iff]
    exact Or.inr (Prod.ext h.1 h.2)
  · rw [if_neg h]
    constructor
    · exact Or.inl
    · rintro (hc | hp)
      · exact hc
      · exact absurd ⟨congrArg Prod.fst hp, congrArg Prod.snd hp⟩ h

theorem noInnerPair_empty (g : Graph) : NoInnerPair g emptyConflicts := by
  intro a b h
  simp [hasType1Conflict, emptyConflicts] at h

theorem noInnerPair_add {g : Graph} {c : ConflictSet} {v w : NodeId}
    (hd : ¬((g.label v).dummy = true ∧ (g.label w).dummy = true))
    (hc : NoInnerPair g c) : NoInnerPair g (addType1Conflict c v w) := by
  intro a b h
  rcases (hasType1Conflict_add c v w a b).1 h with h1 | h1
  · exact hc a b h1
  · rcases canonPair_eq_unordered h1 with ⟨rfl, rfl⟩ | ⟨rfl, rfl⟩
    · exact hd
    · intro hab; exact hd ⟨hab.2, hab.1⟩

theorem noInnerPair_scanNode (g : Graph) (k0 k1 : Nat) (s : NodeId) :
    ∀ c, NoInnerPair g c → NoInnerPair g (scanNodeConflicts g k0 k1 c s) := by
  intro c hc
  unfold scanNodeConflicts
  refine foldl_inv (NoInnerPair g) _ ?_ _ c hc
  intro c' u h
  by_cases hg : ((g.label u).order < k0 ∨ k1 < (g.label u).order) ∧
      ¬((g.label u).dummy = true ∧ (g.label s).dummy = true)
  · rw [if_pos hg]; exact noInnerPair_add hg.2 h
  · rw [if_neg hg]; exact h

theorem noInnerPair_rescan (g : Graph) (k0 k1 : Nat) (pending : List NodeId) :
    ∀ c, NoInnerPair g c → NoInnerPair g (rescan g k0 k1 c pending) := by
  intro c hc
  exact foldl_inv (NoInnerPair g) _ (fun c' s h => noInnerPair_scanNode g k0 k1 s c' h)
    pending c hc

theorem noInnerPair_visitNode (g : Graph) (layer : List NodeId) (pl : Nat)
    (lastNode : Option NodeId) (st : ScanState) (iv : Nat × NodeId)
    (h : NoInnerPair g st.conflicts) :
    NoInnerPair g (visitNode g layer pl lastNode st iv).conflicts := by
  unfold visitNode
  by_cases hg : (findOtherInnerSegmentNode g iv.2).isSome ∨ some iv.2 = lastNode
  · rw [if_pos hg]
    exact noInnerPair_rescan g _ _ _ _ h
  · rw [if_neg hg]
    exact h

theorem noInnerPair_visitLayer (g : Graph) (prevLayer layer : List NodeId)
    {c : ConflictSet} (h : NoInnerPair g c) :
    NoInnerPair g (visitLayer g c prevLayer layer) := by
  unfold visitLayer
  exact foldl_inv (fun st : ScanState => NoInnerPair g st.conflicts)
    _ (fun st iv hst => noInnerPair_visitNode g layer prevLayer.length layer.getLast? st iv hst)
    _ _ h

theorem noInnerPair_collect (g : Graph) (layering : List (List NodeId)) :
    NoInnerPair g (collectType1Conflicts g layering) := by
  unfold collectType1Conflicts
  match layering with
  | [] => exact noInnerPair_empty g
  | first :: rest =>
    exact foldl_inv (fun acc : ConflictSet × List NodeId => NoInnerPair g acc.1)
      _ (fun acc layer h => noInnerPair_visitLayer g acc.2 layer h)
      rest (emptyConflicts, first) (noInnerPair_empty g)

theorem scanNode_mem_of_has (g : Graph) (k0 k1 : Nat) (s : NodeId) :
    ∀ (l : List NodeId) (c : ConflictSet) (a b : NodeId),
      hasType1Conflict
          (l.foldl (fun conflicts u =>
            if ((g.label u).order < k0 ∨ k1 < (g.label u).order) ∧
                ¬((g.label u).dummy = true ∧ (g.label s).dummy = true) then
              addType1Conflict conflicts u s
            else conflicts) c) a b = true →
      hasType1Conflict c a b = true ∨
        ∃ u ∈ l, ((g.label u).order < k0 ∨ k1 < (g.label u).order) ∧
          ¬((g.label u).dummy = true ∧ (g.label s).dummy = true) ∧
          canonPair a b = canonPair u s := by
  intro l
  induction l with
  | nil => intro c a b h; exact Or.inl h
  | cons u l ih =>
    intro c a b h
    rw [List.foldl_cons] at h
    rcases ih _ a b h with h1 | ⟨u', hu', hw⟩
    · by_cases hg : ((g.label u).order < k0 ∨ k1 < (g.label u).order) ∧
          ¬((g.label u).dummy = true ∧ (g.label s).dummy = true)
      · rw [if_pos hg] at h1
        rcases (hasType1Conflict_add c u s a b).1 h1 with h2 | h2
        · exact Or.inl h2
        · exact Or.inr ⟨u, List.mem_cons_self u l, hg.1, hg.2, h2⟩
      · rw [if_neg hg] at h1
        exact Or.inl h1
    · exact Or.inr ⟨u', List.mem_cons_of_mem u hu', hw⟩

/-- Claim C5: collectType1Conflicts never records a conflict for an inner
segment: no recorded pair has both endpoints dummy; and at the level of a
single re-scan step a newly recorded pair (u, scanNode) requires the order of
u to lie strictly outside the window [k0, k1]. -/
theorem claimC5_no_inner_conflict :
    (∀ (g : Graph) (layering : List (List NodeId)) (u v : NodeId),
      hasType1Conflict (collectType1Conflicts g layering) u v = true →
        ¬((g.label u).dummy = true ∧ (g.label v).dummy = true)) ∧
    (∀ (g : Graph) (k0 k1 : Nat) (c : ConflictSet) (s a b : NodeId),
      hasType1Conflict (scanNodeConflicts g k0 k1 c s) a b = true →
        hasType1Conflict c a b = true ∨
          ∃ u ∈ g.preds s, ((g.label u).order < k0 ∨ k1 < (g.label u).order) ∧
            ¬((g.label u).dummy = true ∧ (g.label s).dummy = true) ∧
            canonPair a b = canonPair u s) := by
  constructor
  · intro g layering u v h
    exact noInnerPair_collect g layering u v h
  · intro g k0 k1 c s a b h
    exact scanNode_mem_of_has g k0 k1 s (g.preds s) c a b h

theorem claimC5_witness :
    (hasType1Conflict (collectType1Conflicts Gc5 [[0, 1], [2, 3]]) 2 1 = true ∧
      ¬((Gc5.label 2).dummy = true ∧ (Gc5.label 1).dummy = true)) ∧
    (hasType1Conflict (scanNodeConflicts Gc5 0 0 emptyConflicts 2) 2 1 = true ∧
      (hasType1Conflict emptyConflicts 2 1 = true ∨
        ∃ u ∈ Gc5.preds 2, ((Gc5.label u).order < 0 ∨ 0 < (Gc5.label u).order) ∧
          ¬((Gc5.label u).dummy = true ∧ (Gc5.label 2).dummy = true) ∧
          canonPair 2 1 = canonPair u 2)) :=
  ⟨⟨by decide, claimC5_no_inner_conflict.1 Gc5 [[0, 1], [2, 3]] 2 1 (by decide)⟩,
    ⟨by decide, claimC5_no_inner_conflict.2 Gc5 0 0 emptyConflicts 2 2 1 (by decide)⟩⟩

/-- Claim C6 counterexample: it is not the case that reaching the last node of
a layer always re-scans with prevLayer.length as the upper boundary k1: when
the last node is itself incident on an inner segment, the code uses the order
of the other inner-segment endpoint instead.  At the concrete input Gc6 the
resulting k0 is 0, not prevLayer.length = 2. -/
theorem claimC6_counterexample :
    ¬(∀ (g : Graph) (layer : List NodeId) (prevLayerLength : Nat) (st : ScanState)
        (i : Nat) (v : NodeId), layer.getLast? = some v →
        visitNode g layer prevLayerLength layer.getLast? st (i, v) =
          ⟨prevLayerLength, i + 1,
            rescan g st.k0 prevLayerLength st.conflicts
              ((layer.drop st.scanPos).take (i + 1 - st.scanPos))⟩) := by
  intro h
  have h2 := h Gc6 [1] 2 ⟨0, 0, emptyConflicts⟩ 0 1 rfl
  have h3 := congrArg ScanState.k0 h2
  exact absurd h3 (by decide)

/-- Claim C6 amended: whenever the scan reaches the last node of the layer the
pending nodes from scanPos through that index are re-scanned, with upper
boundary k1 equal to prevLayer.length when the last node is not incident on an
inner segment, and equal to the order of the other inner-segment endpoint
otherwise. -/
theorem claimC6_amended (g : Graph) (layer : List NodeId) (prevLayerLength : Nat)
    (st : ScanState) (i : Nat) (v : NodeId) (h : layer.getLast? = some v) :
    visitNode g layer prevLayerLength layer.getLast? st (i, v) =
      ⟨k1Val g prevLayerLength v, i + 1,
        rescan g st.k0 (k1Val g prevLayerLength v) st.conflicts
          ((layer.drop st.scanPos).take (i + 1 - st.scanPos))⟩ ∧
    (findOtherInnerSegmentNode g v = none → k1Val g prevLayerLength v = prevLayerLength) := by
  constructor
  · unfold visitNode k1Val
    rw [if_pos (Or.inr h.symm)]
  · intro hn
    unfold k1Val
    rw [hn]

theorem claimC6_witness :
    ([1] : List NodeId).getLast? = some 1 ∧
    (visitNode Gc6 [1] 2 (some 1) ⟨0, 0, emptyConflicts⟩ (0, 1) =
        ⟨k1Val Gc6 2 1, 1, rescan Gc6 0 (k1Val Gc6 2 1) emptyConflicts [1]⟩ ∧
      (findOtherInnerSegmentNode Gc6 1 = none → k1Val Gc6 2 1 = 2)) :=
  ⟨rfl, claimC6_amended Gc6 [1] 2 ⟨0, 0, emptyConflicts⟩ 0 1 rfl⟩

theorem tryCandidate_proj (conflicts : ConflictSet) (v : NodeId) (ws : List NodeId)
    (s : Graph × Int × List MergeRec) (i : Nat) :
    tryCandidate conflicts v ws (s.1, s.2.1) i =
      ((tryCandidateRec conflicts v ws s i).1, (tryCandidateRec conflicts v ws s i).2.1) := by
  rcases s with ⟨g, p, ms⟩
  unfold tryCandidate tryCandidateRec
  dsimp only
  by_cases hC : (g.label v).align = v ∧ p < ((g.label (ws.getD i 0)).order : Int) ∧
      ¬hasType1Conflict conflicts v (ws.getD i 0) = true
  · rw [if_pos hC, if_pos hC]
  · rw [if_neg hC, if_neg hC]

theorem alignNode_proj (conflicts : ConflictSet) (neighborFn : NodeId → List NodeId)
    (s : Graph × Int × List MergeRec) (v : NodeId) :
    alignNode conflicts neighborFn (s.1, s.2.1) v =
      ((alignNodeRec conflicts neighborFn s v).1,
        (alignNodeRec conflicts neighborFn s v).2.1) := by
  unfold alignNode alignNodeRec
  by_cases h : (neighborFn v).length ≠ 0
  · rw [if_pos h, if_pos h]
    exact List.foldl_hom (fun s : Graph × Int × List MergeRec => (s.1, s.2.1)) _ _ _ s
      (fun x y => tryCandidate_proj conflicts v (neighborFn v) x y)
  · rw [if_neg h, if_neg h]

theorem verticalAlignment_eq_rec (g : Graph) (layering : List (List NodeId))
    (conflicts : ConflictSet) (neighborFn : NodeId → List NodeId) :
    verticalAlignment g layering conflicts neighborFn =
      (verticalAlignmentRec g layering conflicts neighborFn).1 := by
  unfold verticalAlignment verticalAlignmentRec
  refine (List.foldl_hom Prod.fst _ _ layering (_, ([] : List MergeRec)) ?_)
  intro x layer
  have h := List.foldl_hom (fun s : Graph × Int × List MergeRec => (s.1, s.2.1))
    (alignNodeRec conflicts neighborFn) (alignNode conflicts neighborFn) layer
    (x.1, -1, x.2) (fun s v => alignNode_proj conflicts neighborFn s v)
  exact congrArg Prod.fst h

theorem tryCandidateRec_ok (conflicts : ConflictSet) (v : NodeId) (ws : List NodeId)
    (s : Graph × Int × List MergeRec) (i : Nat)
    (h : ∀ m ∈ s.2.2, MergeOk conflicts m) :
    ∀ m ∈ (tryCandidateRec conflicts v ws s i).2.2, MergeOk conflicts m := by
  rcases s with ⟨g, p, ms⟩
  unfold tryCandidateRec
  dsimp only
  by_cases hC : (g.label v).align = v ∧ p < ((g.label (ws.getD i 0)).order : Int) ∧
      ¬hasType1Conflict conflicts v (ws.getD i 0) = true
  · rw [if_pos hC]
    intro m hm
    rcases List.mem_append.1 hm with hm1 | hm1
    · exact h m hm1
    · rcases List.mem_singleton.1 hm1 with rfl
      refine ⟨?_, hC.1, hC.2.1⟩
      have h2 := hC.2.2
      simp only [Bool.not_eq_true] at h2
      exact h2
  · rw [if_neg hC]
    exact h

theorem alignNodeRec_ok (conflicts : ConflictSet) (neighborFn : NodeId → List NodeId)
    (s : Graph × Int × List MergeRec) (v : NodeId)
    (h : ∀ m ∈ s.2.2, MergeOk conflicts m) :
    ∀ m ∈ (alignNodeRec conflicts neighborFn s v).2.2, MergeOk conflicts m := by
  unfold alignNodeRec
  by_cases hl : (neighborFn v).length ≠ 0
  · rw [if_pos hl]
    exact foldl_inv (fun st : Graph × Int × List MergeRec => ∀ m ∈ st.2.2, MergeOk conflicts m)
      _ (fun st i hst => tryCandidateRec_ok conflicts v (neighborFn v) st i hst) _ s h
  · rw [if_neg hl]
    exact h

theorem verticalAlignmentRec_ok (g : Graph) (layering : List (List NodeId))
    (conflicts : ConflictSet) (neighborFn : NodeId → List NodeId) :
    ∀ m ∈ (verticalAlignmentRec g layering conflicts neighborFn).2, MergeOk conflicts m := by
  unfold verticalAlignmentRec
  refine foldl_inv (fun acc : Graph × List MergeRec => ∀ m ∈ acc.2, MergeOk conflicts m)
    _ ?_ layering _ (by intro m hm; exact absurd hm (List.not_mem_nil m))
  intro acc layer hacc
  exact foldl_inv (fun st : Graph × Int × List MergeRec => ∀ m ∈ st.2.2, MergeOk conflicts m)
    _ (fun st v hst => alignNodeRec_ok conflicts neighborFn st v hst) layer
    (acc.1, -1, acc.2) hacc

/-- Claim C3: verticalAlignment never merges across a recorded type-1
conflict: the run of verticalAlignment agrees with its instrumented version,
and every merge the instrumented version records was performed with no
recorded conflict on (v, w), with v not yet aligned (v.align was still v) and
with the order of w strictly greater than prevIdx. -/
theorem claimC3_no_conflict_merge (g : Graph) (layering : List (List NodeId))
    (conflicts : ConflictSet) (neighborFn : NodeId → List NodeId) :
    verticalAlignment g layering conflicts neighborFn =
      (verticalAlignmentRec g layering conflicts neighborFn).1 ∧
    ∀ m ∈ (verticalAlignmentRec g layering conflicts neighborFn).2,
      hasType1Conflict conflicts m.v m.w = false ∧ m.vAlignPre = m.v ∧
        m.prevIdxPre < (m.wOrder : Int) :=
  ⟨verticalAlignment_eq_rec g layering conflicts neighborFn,
    verticalAlignmentRec_ok g layering conflicts neighborFn⟩

theorem claimC3_witness :
    ((⟨1, 0, 1, -1, 0⟩ : MergeRec) ∈
        (verticalAlignmentRec Gc3 [[0], [1]] emptyConflicts nbf3).2) ∧
    (hasType1Conflict emptyConflicts 1 0 = false ∧ (1 : NodeId) = 1 ∧
      (-1 : Int) < ((0 : Nat) : Int)) :=
  ⟨by decide,
    (claimC3_no_conflict_merge Gc3 [[0], [1]] emptyConflicts nbf3).2
      ⟨1, 0, 1, -1, 0⟩ (by decide)⟩

/-- Claim C1 evaluation at a failing input: on the valid block structure Gc1
(block 0-1 rooted at 0, singleton block 2, node 1 the in-layer predecessor of
node 2), compaction with default options leaves x(2) = 55 and x(1) = 0 while
sep(2, 1) = 155, so the claimed separation x(w) >= x(u) + sep(w, u) fails:
placeBlock computes the separation against the block root 0 (width 0) instead
of the actual predecessor 1 (width 200).  No shift is pending (every shift
entry is still infinite), so the inequality also fails after the final shift
pass. -/
theorem claimC1_code_eval :
    ((horizontalCompaction Gc1 [[0], [1, 2]] none).1.label 2).x = some 55 ∧
      ((horizontalCompaction Gc1 [[0], [1, 2]] none).1.label 1).x = some 0 ∧
      sep Gc1 (applyDefaults ⟨none, none⟩) 2 1 = 155 ∧
      (Gc1.label 0).root = 0 ∧ (Gc1.label 0).align = 1 ∧ (Gc1.label 1).root = 0 ∧
      (Gc1.label 1).align = 0 ∧ (Gc1.label 2).root = 2 ∧ (Gc1.label 2).align = 2 ∧
      ¬((0 : ℚ) + 155 ≤ 55) := by
  refine ⟨by decide, by decide, by decide, rfl, rfl, rfl, rfl, rfl, rfl, by decide⟩

/-- Claim C7: the separation used by compaction is half the width of each
node plus half of edgesep or nodesep per side depending on that side being a
dummy; and missing options fall back to nodesep 50 and edgesep 10, with
horizontalCompaction behaving as if the defaults had been filled in by the
caller. -/
theorem claimC7_sep_formula :
    (∀ (g : Graph) (options : Options) (v u : NodeId),
      sep g options v u =
        (g.label u).width / 2 +
          (if (g.label u).dummy then options.edgesep / 2 else options.nodesep / 2) +
          (if (g.label v).dummy then options.edgesep / 2 else options.nodesep / 2) +
          (g.label v).width / 2) ∧
    applyDefaults ⟨none, none⟩ = ⟨50, 10⟩ ∧
    (∀ e, (applyDefaults ⟨none, e⟩).nodesep = 50) ∧
    (∀ n, (applyDefaults ⟨n, none⟩).edgesep = 10) ∧
    (∀ (g : Graph) (layering : List (List NodeId)) (optionsIn : Option OptionsIn),
      horizontalCompaction g layering optionsIn =
        horizontalCompaction g layering
          (some ⟨some ((optionsIn.getD ⟨none, none⟩).nodesep.getD 50),
            some ((optionsIn.getD ⟨none, none⟩).edgesep.getD 10)⟩)) :=
  ⟨fun _ _ _ _ => rfl, rfl, fun _ => rfl, fun _ => rfl, fun _ _ _ => rfl⟩

/-- Claim C10: horizontalCompaction fills the caller-supplied options object
in place: after the call the object has nodesep equal to the supplied value
or 50 when absent, and edgesep equal to the supplied value or 10 when absent;
keys already present keep their original values. -/
theorem claimC10_options_mutation :
    (∀ (g : Graph) (layering : List (List NodeId)) (o : OptionsIn),
      (horizontalCompaction g layering (some o)).2 =
        ⟨o.nodesep.getD 50, o.edgesep.getD 10⟩) ∧
    (∀ (g : Graph) (layering : List (List NodeId)) (e : Option ℚ),
      (horizontalCompaction g layering (some ⟨none, e⟩)).2.nodesep = 50) ∧
    (∀ (g : Graph) (layering : List (List NodeId)) (n : Option ℚ),
      (horizontalCompaction g layering (some ⟨n, none⟩)).2.edgesep = 10) ∧
    (∀ (g : Graph) (layering : List (List NodeId)) (n e : ℚ),
      (horizontalCompaction g layering (some ⟨some n, some e⟩)).2 = ⟨n, e⟩) :=
  ⟨fun _ _ _ => rfl, fun _ _ _ => rfl, fun _ _ _ => rfl, fun _ _ _ _ => rfl⟩

theorem clearX_setX (g : Graph) (v : NodeId) (q : Option ℚ) :
    clearX (g.setX v q) = clearX g := by
  unfold clearX Graph.setX
  congr 1
  funext u
  by_cases h : u = v
  · simp [h]
  · simp [h]

theorem hcAux_sink_clearX (st2 : HCState) (v u : NodeId) :
    clearX (if st2.sink v = v then
        (⟨st2.g, st2.shift, updf st2.sink v (st2.sink u)⟩ : HCState)
      else st2).g = clearX st2.g := by
  by_cases hs : st2.sink v = v
  · rw [if_pos hs]
  · rw [if_neg hs]

theorem hcAux_branch_clearX (st3 : HCState) (v u : NodeId)
    (sh : NodeId → Option ℚ) (q : Option ℚ) :
    clearX (if st3.sink v ≠ st3.sink u then (⟨st3.g, sh, st3.sink⟩ : HCState)
      else ⟨st3.g.setX v q, st3.shift, st3.sink⟩).g = clearX st3.g := by
  by_cases hs : st3.sink v ≠ st3.sink u
  · rw [if_pos hs]
  · rw [if_neg hs]
    exact clearX_setX st3.g v q

theorem placeBlockStep_clearX (layering : List (List NodeId)) (options : Options)
    (pb : HCState → NodeId → HCState)
    (hpb : ∀ st u, clearX (pb st u).g = clearX st.g) (st : HCState) (v w : NodeId) :
    clearX (placeBlockStep layering options pb st v w).g = clearX st.g := by
  unfold placeBlockStep
  by_cases hp : 0 < pos st.g w
  · rw [if_pos hp]
    dsimp only
    refine Eq.trans (hcAux_branch_clearX _ v (root st.g (pred st.g layering w)) _ _) ?_
    refine Eq.trans (hcAux_sink_clearX _ v (root st.g (pred st.g layering w))) ?_
    exact hpb st _
  · rw [if_neg hp]

theorem placeBlockLoop_clearX (layering : List (List NodeId)) (options : Options)
    (pb : HCState → NodeId → HCState)
    (hpb : ∀ st u, clearX (pb st u).g = clearX st.g) :
    ∀ (n : Nat) (st : HCState) (v w : NodeId),
      clearX (placeBlockLoop layering options pb n st v w).g = clearX st.g := by
  intro n
  induction n with
  | zero => intro st v w; rfl
  | succ n ih =>
    intro st v w
    have hstep := placeBlockStep_clearX layering options pb hpb st v w
    unfold placeBlockLoop
    dsimp only
    by_cases hw : align (placeBlockStep layering options pb st v w).g w = v
    · rw [if_pos hw]
      exact hstep
    · rw [if_neg hw]
      rw [ih (placeBlockStep layering options pb st v w) v
        (align (placeBlockStep layering options pb st v w).g w)]
      exact hstep

theorem placeBlock_clearX (layering : List (List NodeId)) (options : Options) :
    ∀ (fuel : Nat) (st : HCState) (v : NodeId),
      clearX (placeBlock layering options fuel st v).g = clearX st.g := by
  intro fuel
  induction fuel with
  | zero => intro st v; rfl
  | succ fuel ih =>
    intro st v
    unfold placeBlock
    by_cases hx : (x st.g v).isSome
    · rw [if_pos hx]
    · rw [if_neg hx]
      dsimp only
      rw [placeBlockLoop_clearX layering options _ ih]
      exact clearX_setX st.g v (some 0)

theorem horizontalCompaction_clearX (g : Graph) (layering : List (List NodeId))
    (optionsIn : Option OptionsIn) :
    clearX (horizontalCompaction g layering optionsIn).1 = clearX g := by
  unfold horizontalCompaction
  dsimp only
  have h1 : clearX
      (g.nodeIds.foldl
        (fun st v =>
          if root st.g v = v then
            placeBlock layering (applyDefaults (optionsIn.getD ⟨none, none⟩))
              (g.nodeIds.length + 1) st v
          else st)
        ⟨g, fun _ => none, fun v => v⟩).g = clearX g := by
    refine foldl_inv (fun st : HCState => clearX st.g = clearX g) _ ?_ g.nodeIds _ rfl
    intro st v hst
    dsimp only
    split
    · exact (placeBlock_clearX layering _ _ st v).trans hst
    · exact hst
  refine foldl_inv (fun gg : Graph => clearX gg = clearX g) _ ?_ g.nodeIds _ h1
  intro gg v hgg
  dsimp only
  split
  · exact ((clearX_setX _ v _).trans (clearX_setX gg v _)).trans hgg
  · exact (clearX_setX gg v _).trans hgg

/-- Claim C8: compaction is idempotent relative to the block structure: if
every x field is initially undefined (clearX g = g), clearing the x fields of
the compacted graph and running horizontalCompaction again with the same
layering and options reproduces the compacted graph exactly, in particular
every node gets the same x coordinate. -/
theorem claimC8_idempotent (g : Graph) (layering : List (List NodeId))
    (optionsIn : Option OptionsIn) (h : clearX g = g) :
    horizontalCompaction (clearX (horizontalCompaction g layering optionsIn).1)
        layering optionsIn =
      horizontalCompaction g layering optionsIn := by
  rw [horizontalCompaction_clearX, h]

theorem claimC8_witness :
    clearX Gc8 = Gc8 ∧
      horizontalCompaction (clearX (horizontalCompaction Gc8 [[0]] none).1) [[0]] none =
        horizontalCompaction Gc8 [[0]] none :=
  ⟨rfl, claimC8_idempotent Gc8 [[0]] none rfl⟩

theorem align_setAlign (g : Graph) (v a u : NodeId) :
    align (g.setAlign v a) u = if u = v then a else align g u := by
  by_cases h : u = v <;> simp [align, Graph.setAlign, h]

theorem root_setAlign (g : Graph) (v a u : NodeId) :
    root (g.setAlign v a) u = root g u := by
  by_cases h : u = v <;> simp [root, Graph.setAlign, h]

theorem order_setAlign (g : Graph) (v a u : NodeId) :
    ((g.setAlign v a).label u).order = (g.label u).order := by
  by_cases h : u = v <;> simp [Graph.setAlign, h]

theorem align_setAlignRoot (g : Graph) (v r u : NodeId) :
    align (g.setAlignRoot v r) u = if u = v then r else align g u := by
  by_cases h : u = v <;> simp [align, Graph.setAlignRoot, h]

theorem root_setAlignRoot (g : Graph) (v r u : NodeId) :
    root (g.setAlignRoot v r) u = if u = v then r else root g u := by
  by_cases h : u = v <;> simp [root, Graph.setAlignRoot, h]

theorem order_setAlignRoot (g : Graph) (v r u : NodeId) :
    ((g.setAlignRoot v r).label u).order = (g.label u).order := by
  by_cases h : u = v <;> simp [Graph.setAlignRoot, h]

theorem chainLinks_congr {al al2 : NodeId → NodeId} {r : NodeId} :
    ∀ {t : List NodeId} {cur : NodeId}, ChainLinks al r cur t →
      (∀ n ∈ cur :: t, al2 n = al n) → ChainLinks al2 r cur t := by
  intro t
  induction t with
  | nil =>
    intro cur h hag
    show al2 cur = r
    rw [hag cur (List.mem_cons_self _ _)]
    exact h
  | cons b t ih =>
    intro cur h hag
    obtain ⟨h1, h2⟩ := h
    exact ⟨(hag cur (List.mem_cons_self _ _)).trans h1,
      ih h2 (fun n hn => hag n (List.mem_cons_of_mem _ hn))⟩

theorem chainLinks_getD {al : NodeId → NodeId} {r : NodeId} :
    ∀ (t : List NodeId) (cur : NodeId), ChainLinks al r cur t →
      (∀ i, i + 1 < (cur :: t).length →
          al ((cur :: t).getD i 0) = (cur :: t).getD (i + 1) 0) ∧
        al ((cur :: t).getD t.length 0) = r := by
  intro t
  induction t with
  | nil =>
    intro cur h
    refine ⟨fun i hi => absurd hi (by simp), h⟩
  | cons b t ih =>
    intro cur h
    obtain ⟨h1, h2⟩ := h
    obtain ⟨ih1, ih2⟩ := ih b h2
    constructor
    · intro i hi
      cases i with
      | zero => exact h1
      | succ j =>
        have hj : j + 1 < (b :: t).length := by
          simp only [List.length_cons] at hi ⊢
          omega
        have := ih1 j hj
        simpa using this
    · simpa using ih2

theorem chainMembers_length_pos (c : NodeId × List NodeId) :
    0 < (chainMembers c).length := by
  unfold chainMembers
  simp

theorem chainLinks_step {al : NodeId → NodeId} {c : NodeId × List NodeId}
    (h : ChainLinks al c.1 c.1 c.2) :
    ∀ i, i < (chainMembers c).length →
      al ((chainMembers c).getD i 0) =
        (chainMembers c).getD ((i + 1) % (chainMembers c).length) 0 := by
  obtain ⟨h1, h2⟩ := chainLinks_getD c.2 c.1 h
  intro i hi
  rcases Nat.lt_or_ge (i + 1) (chainMembers c).length with hlt | hge
  · rw [Nat.mod_eq_of_lt hlt]
    exact h1 i hlt
  · have hi1 : i + 1 = (chainMembers c).length := by omega
    have hti : i = c.2.length := by
      have : (chainMembers c).length = c.2.length + 1 := by unfold chainMembers; simp
      omega
    rw [hi1, Nat.mod_self, hti]
    exact h2

theorem chainLinks_iterate {al : NodeId → NodeId} {c : NodeId × List NodeId}
    (h : ChainLinks al c.1 c.1 c.2) :
    ∀ (k i : Nat), i < (chainMembers c).length →
      al^[k] ((chainMembers c).getD i 0) =
        (chainMembers c).getD ((i + k) % (chainMembers c).length) 0 := by
  intro k
  induction k with
  | zero =>
    intro i hi
    simp [Nat.mod_eq_of_lt hi]
  | succ k ih =>
    intro i hi
    rw [Function.iterate_succ_apply', ih i hi]
    have hm : (i + k) % (chainMembers c).length < (chainMembers c).length :=
      Nat.mod_lt _ (chainMembers_length_pos c)
    rw [chainLinks_step h _ hm]
    rw [Nat.mod_add_mod, Nat.add_assoc]

theorem mem_getD_index {l : List NodeId} {n : NodeId} (h : n ∈ l) :
    ∃ i, i < l.length ∧ l.getD i 0 = n := by
  obtain ⟨i, hi, hget⟩ := List.getElem_of_mem h
  exact ⟨i, hi, by rw [List.getD_eq_getElem l 0 hi]; exact hget⟩

theorem getD_mem {l : List NodeId} {i : Nat} (h : i < l.length) : l.getD i 0 ∈ l := by
  rw [List.getD_eq_getElem l 0 h]
  exact List.getElem_mem h

theorem nodup_getD_inj {l : List NodeId} (hnd : l.Nodup) {i j : Nat}
    (hi : i < l.length) (hj : j < l.length) (h : l.getD i 0 = l.getD j 0) : i = j := by
  rw [List.getD_eq_getElem l 0 hi, List.getD_eq_getElem l 0 hj] at h
  exact (List.Nodup.getElem_inj_iff hnd).1 h

theorem coreInv_flatten_nodup {g : Graph} {P : List NodeId}
    {chains : List (NodeId × List NodeId)} (hcore : CoreInv g P chains)
    (hP : P.Nodup) : ((chains.map chainMembers).flatten).Nodup :=
  (hcore.1.symm).nodup hP

theorem chains_decomp_nodup {chains rest : List (NodeId × List NodeId)}
    {c : NodeId × List NodeId} (hperm : chains.Perm (c :: rest))
    (hnd : ((chains.map chainMembers).flatten).Nodup) :
    (chainMembers c ++ (rest.map chainMembers).flatten).Nodup := by
  have h2 : ((chains.map chainMembers).flatten).Perm
      (chainMembers c ++ (rest.map chainMembers).flatten) := by
    have := (hperm.map chainMembers).flatten
    simpa using this
  exact h2.nodup hnd

theorem chain_members_nodup {g : Graph} {P : List NodeId}
    {chains : List (NodeId × List NodeId)} (hcore : CoreInv g P chains)
    (hP : P.Nodup) {c : NodeId × List NodeId} (hc : c ∈ chains) :
    (chainMembers c).Nodup :=
  (List.nodup_append.1
    (chains_decomp_nodup (List.perm_cons_erase hc) (coreInv_flatten_nodup hcore hP))).1

theorem chains_share {g : Graph} {P : List NodeId}
    {chains : List (NodeId × List NodeId)} (hcore : CoreInv g P chains)
    (hP : P.Nodup) {c1 c2 : NodeId × List NodeId} (h1 : c1 ∈ chains)
    (h2 : c2 ∈ chains) {n : NodeId} (hn1 : n ∈ chainMembers c1)
    (hn2 : n ∈ chainMembers c2) : c1 = c2 := by
  by_contra hne
  have hperm := List.perm_cons_erase h1
  have hnd := chains_decomp_nodup hperm (coreInv_flatten_nodup hcore hP)
  rcases List.mem_cons.1 ((hperm.mem_iff).1 h2) with h | h
  · exact hne h.symm
  · exact (List.nodup_append.1 hnd).2.2 hn1
      (List.mem_flatten.2 ⟨chainMembers c2, List.mem_map_of_mem _ h, hn2⟩)

theorem exists_chain_of_mem {g : Graph} {P : List NodeId}
    {chains : List (NodeId × List NodeId)} (hcore : CoreInv g P chains)
    {v : NodeId} (hv : v ∈ P) : ∃ c ∈ chains, v ∈ chainMembers c := by
  have hvf : v ∈ (chains.map chainMembers).flatten := (hcore.1.mem_iff).2 hv
  obtain ⟨m, hm, hvm⟩ := List.mem_flatten.1 hvf
  obtain ⟨c, hc, rfl⟩ := List.mem_map.1 hm
  exact ⟨c, hc, hvm⟩

theorem chain_member_mem_P {g : Graph} {P : List NodeId}
    {chains : List (NodeId × List NodeId)} (hcore : CoreInv g P chains)
    {c : NodeId × List NodeId} (hc : c ∈ chains) {n : NodeId}
    (hn : n ∈ chainMembers c) : n ∈ P :=
  (hcore.1.mem_iff).1
    (List.mem_flatten.2 ⟨chainMembers c, List.mem_map_of_mem _ hc, hn⟩)

theorem chain_eq_singleton {g : Graph} {P : List NodeId}
    {chains : List (NodeId × List NodeId)} (hcore : CoreInv g P chains)
    (hP : P.Nodup) {c : NodeId × List NodeId} (hc : c ∈ chains) {v : NodeId}
    (hv : v ∈ chainMembers c) (ha : align g v = v) : c = (v, []) := by
  have hok := hcore.2 c hc
  have hnd := chain_members_nodup hcore hP hc
  obtain ⟨i, hi, hgi⟩ := mem_getD_index hv
  have hstep := chainLinks_step hok.1 i hi
  rw [hgi, ha] at hstep
  have hmod : (i + 1) % (chainMembers c).length < (chainMembers c).length :=
    Nat.mod_lt _ (chainMembers_length_pos c)
  have hieq : i = (i + 1) % (chainMembers c).length :=
    nodup_getD_inj hnd hi hmod (hgi.trans hstep)
  rcases Nat.lt_or_ge (i + 1) (chainMembers c).length with hlt | hge
  · rw [Nat.mod_eq_of_lt hlt] at hieq
    omega
  · have hn1 : i + 1 = (chainMembers c).length := by omega
    have hi0 : i = 0 := by
      rw [hn1, Nat.mod_self] at hieq
      exact hieq
    have hlen : (chainMembers c).length = 1 := by omega
    have ht : c.2 = [] := by
      have : c.2.length + 1 = 1 := by
        have hm : (chainMembers c).length = c.2.length + 1 := by
          unfold chainMembers
          simp
        omega
      exact List.length_eq_zero.1 (by omega)
    have hr : c.1 = v := by
      rw [hi0] at hgi
      exact hgi
    cases c with
    | mk r t =>
      dsimp only at ht hr
      rw [ht, hr]

theorem chainLinks_append {al al2 : NodeId → NodeId} {r v : NodeId} :
    ∀ (t : List NodeId) (cur : NodeId), ChainLinks al r cur t →
      (cur :: t).Nodup →
      (∀ n ∈ cur :: t, n ≠ (cur :: t).getD t.length 0 → al2 n = al n) →
      al2 ((cur :: t).getD t.length 0) = v → al2 v = r →
      ChainLinks al2 r cur (t ++ [v]) := by
  intro t
  induction t with
  | nil =>
    intro cur h hnd hag hlast hv
    exact ⟨hlast, hv⟩
  | cons b t ih =>
    intro cur h hnd hag hlast hv
    obtain ⟨h1, h2⟩ := h
    have hlmem : (b :: t).getD t.length 0 ∈ b :: t := getD_mem (by simp)
    have hcur : cur ≠ (b :: t).getD t.length 0 := by
      intro he
      rw [he] at hnd
      exact (List.nodup_cons.1 hnd).1 hlmem
    refine ⟨?_, ih b h2 (List.nodup_cons.1 hnd).2 ?_ ?_ hv⟩
    · rw [hag cur (List.mem_cons_self _ _) hcur]
      exact h1
    · intro n hn hne
      exact hag n (List.mem_cons_of_mem _ hn) hne
    · exact hlast

theorem chainOk_congr {al ro al2 ro2 : NodeId → NodeId} {c : NodeId × List NodeId}
    (h : ChainOk al ro c)
    (hag : ∀ n ∈ chainMembers c, al2 n = al n ∧ ro2 n = ro n) : ChainOk al2 ro2 c :=
  ⟨chainLinks_congr h.1 (fun n hn => (hag n hn).1),
    fun n hn => ((hag n hn).2).trans (h.2 n hn)⟩

theorem chain_last_of_align_eq_root {g : Graph} {P : List NodeId}
    {chains : List (NodeId × List NodeId)} (hcore : CoreInv g P chains)
    (hP : P.Nodup) {c : NodeId × List NodeId} (hc : c ∈ chains) {w : NodeId}
    (hw : w ∈ chainMembers c) (hl : align g w = root g w) :
    w = (chainMembers c).getD c.2.length 0 := by
  have hok := hcore.2 c hc
  have hnd := chain_members_nodup hcore hP hc
  obtain ⟨i, hi, hgi⟩ := mem_getD_index hw
  have hstep := chainLinks_step hok.1 i hi
  have hro : root g w = c.1 := hok.2 w hw
  rw [hgi, hl, hro] at hstep
  have hmod : (i + 1) % (chainMembers c).length < (chainMembers c).length :=
    Nat.mod_lt _ (chainMembers_length_pos c)
  have h0 : (0 : Nat) < (chainMembers c).length := chainMembers_length_pos c
  have hieq : (0 : Nat) = (i + 1) % (chainMembers c).length := by
    refine nodup_getD_inj hnd h0 hmod ?_
    exact hstep
  have hn1 : i + 1 = (chainMembers c).length := by
    rcases Nat.lt_or_ge (i + 1) (chainMembers c).length with hlt | hge
    · rw [Nat.mod_eq_of_lt hlt] at hieq
      omega
    · omega
  have hlen : (chainMembers c).length = c.2.length + 1 := by
    unfold chainMembers
    simp
  have : i = c.2.length := by omega
  rw [← this]
  exact hgi.symm

theorem merge_core {g : Graph} {P : List NodeId}
    {chains : List (NodeId × List NodeId)} (hP : P.Nodup)
    (hcore : CoreInv g P chains) {v w : NodeId}
    (hvP : v ∈ P) (hwP : w ∈ P) (hvw : v ≠ w)
    (hav : align g v = v) (hlw : align g w = root g w) :
    ∃ chains2, CoreInv ((g.setAlign w v).setAlignRoot v (root g w)) P chains2 := by
  obtain ⟨cv, hcv, hvcv⟩ := exists_chain_of_mem hcore hvP
  obtain ⟨cw, hcw, hwcw⟩ := exists_chain_of_mem hcore hwP
  have hcveq : cv = (v, []) := chain_eq_singleton hcore hP hcv hvcv hav
  have hwlast : w = (chainMembers cw).getD cw.2.length 0 :=
    chain_last_of_align_eq_root hcore hP hcw hwcw hlw
  have hwlast2 : w = (cw.1 :: cw.2).getD cw.2.length 0 := hwlast
  have hne : cv ≠ cw := by
    intro he
    rw [hcveq] at he
    rw [← he] at hwcw
    have hwv : w = v := by
      have h3 := hwcw
      unfold chainMembers at h3
      simpa using h3
    exact hvw hwv.symm
  obtain ⟨rest, hperm⟩ : ∃ rest, chains.Perm (cv :: cw :: rest) := by
    have hperm1 := List.perm_cons_erase hcv
    rcases List.mem_cons.1 ((hperm1.mem_iff).1 hcw) with h | h
    · exact absurd h.symm hne
    · exact ⟨_, hperm1.trans ((List.perm_cons_erase h).cons cv)⟩
  have hndflat := coreInv_flatten_nodup hcore hP
  have hndD : (chainMembers cv ++
      (chainMembers cw ++ (rest.map chainMembers).flatten)).Nodup := by
    have h2 := (hperm.map chainMembers).flatten
    refine (List.Perm.nodup ?_ hndflat)
    simpa using h2
  have hndcv := (List.nodup_append.1 hndD).1
  have hndrest := (List.nodup_append.1 hndD).2.1
  have hdisj1 := (List.nodup_append.1 hndD).2.2
  have hndcw := (List.nodup_append.1 hndrest).1
  have hdisj2 := (List.nodup_append.1 hndrest).2.2
  have hvnotcw : v ∉ chainMembers cw := by
    intro hvw2
    exact hdisj1 hvcv (List.mem_append.2 (Or.inl hvw2))
  have hvnotrest : v ∉ (rest.map chainMembers).flatten := by
    intro hvr
    exact hdisj1 hvcv (List.mem_append.2 (Or.inr hvr))
  have hwnotrest : w ∉ (rest.map chainMembers).flatten := by
    intro hwr
    exact hdisj2 hwcw hwr
  have hrw : root g w = cw.1 := (hcore.2 cw hcw).2 w hwcw
  set g2 := (g.setAlign w v).setAlignRoot v (root g w) with hg2
  have hal2 : ∀ n, align g2 n = if n = v then root g w else if n = w then v else align g n := by
    intro n
    rw [hg2, align_setAlignRoot, align_setAlign]
  have hro2 : ∀ n, root g2 n = if n = v then root g w else root g n := by
    intro n
    rw [hg2, root_setAlignRoot, root_setAlign]
  refine ⟨(cw.1, cw.2 ++ [v]) :: rest, ?_, ?_⟩
  · have hmnew : chainMembers (cw.1, cw.2 ++ [v]) = chainMembers cw ++ [v] := by
      unfold chainMembers
      simp
    have hstep1 : List.Perm
        ((List.map chainMembers ((cw.1, cw.2 ++ [v]) :: rest)).flatten)
        (chainMembers cv ++ (chainMembers cw ++ (rest.map chainMembers).flatten)) := by
      rw [List.map_cons, List.flatten_cons, hmnew, ← List.append_assoc]
      have h1 : List.Perm (chainMembers cw ++ [v]) (chainMembers cv ++ chainMembers cw) := by
        rw [hcveq]
        exact List.perm_append_comm
      exact h1.append_right _
    have hold : List.Perm ((chains.map chainMembers).flatten)
        (chainMembers cv ++ (chainMembers cw ++ (rest.map chainMembers).flatten)) := by
      have h2 := (hperm.map chainMembers).flatten
      simpa using h2
    exact (hstep1.trans hold.symm).trans hcore.1
  · intro c hc2
    rcases List.mem_cons.1 hc2 with rfl | hcr
    · constructor
      · refine chainLinks_append cw.2 cw.1 (hcore.2 cw hcw).1 hndcw ?_ ?_ ?_
        · intro n hn hne2
          have hnv : n ≠ v := by
            intro h3
            rw [h3] at hn
            exact hvnotcw hn
          have hnw : n ≠ w := by
            intro h3
            rw [h3] at hne2
            exact hne2 hwlast2
          rw [hal2 n, if_neg hnv, if_neg hnw]
        · rw [← hwlast2, hal2 w, if_neg (fun h => hvw h.symm), if_pos rfl]
        · rw [hal2 v, if_pos rfl]
          exact hrw
      · intro n hn
        have hn2 : n ∈ cw.1 :: (cw.2 ++ [v]) := hn
        rcases List.mem_cons.1 hn2 with heq | hn3
        · have hnv : n ≠ v := by
            intro h3
            apply hvnotcw
            rw [heq] at h3
            rw [← h3]
            exact List.mem_cons_self _ _
          rw [hro2 n, if_neg hnv, heq]
          exact (hcore.2 cw hcw).2 cw.1 (List.mem_cons_self _ _)
        · rcases List.mem_append.1 hn3 with hn4 | hn4
          · have hnmem : n ∈ chainMembers cw := List.mem_cons_of_mem _ hn4
            have hnv : n ≠ v := by
              intro h3
              rw [h3] at hnmem
              exact hvnotcw hnmem
            rw [hro2 n, if_neg hnv]
            exact (hcore.2 cw hcw).2 n hnmem
          · have hnveq : n = v := by simpa using hn4
            rw [hnveq, hro2 v, if_pos rfl]
            exact hrw
    · have hcchains : c ∈ chains :=
        (hperm.mem_iff).2 (List.mem_cons_of_mem _ (List.mem_cons_of_mem _ hcr))
      refine chainOk_congr (hcore.2 c hcchains) ?_
      intro n hn
      have hnflat : n ∈ (rest.map chainMembers).flatten :=
        List.mem_flatten.2 ⟨chainMembers c, List.mem_map_of_mem _ hcr, hn⟩
      have hnv : n ≠ v := by
        intro h3
        rw [h3] at hnflat
        exact hvnotrest hnflat
      have hnw : n ≠ w := by
        intro h3
        rw [h3] at hnflat
        exact hwnotrest hnflat
      constructor
      · rw [hal2 n, if_neg hnv, if_neg hnw]
      · rw [hro2 n, if_neg hnv]

theorem tryCandidate_inv (conflicts : ConflictSet) (v : NodeId) (ws : List NodeId)
    (P prevLayer : List NodeId) (U D : NodeId → Prop) (hP : P.Nodup)
    (hws : ∀ n ∈ ws, n ∈ prevLayer)
    (hprevP : ∀ n ∈ prevLayer, n ∈ P) (hvP : v ∈ P)
    (hvprev : v ∉ prevLayer)
    (hUv : ¬U v) (hUprev : ∀ n ∈ prevLayer, ¬U n)
    (hDv : ¬D v) (hDprev : ∀ n ∈ prevLayer, ¬D n)
    (st : Graph × Int) (i : Nat) (hi : i < ws.length)
    (hInv : LInv st.1 P prevLayer U D st.2) (hveq : align st.1 v = root st.1 v) :
    LInv (tryCandidate conflicts v ws st i).1 P prevLayer U D
        (tryCandidate conflicts v ws st i).2 ∧
      align (tryCandidate conflicts v ws st i).1 v =
        root (tryCandidate conflicts v ws st i).1 v ∧
      st.2 ≤ (tryCandidate conflicts v ws st i).2 := by
  rcases st with ⟨g, p⟩
  unfold tryCandidate
  dsimp only
  by_cases hC : (g.label v).align = v ∧ p < ((g.label (ws.getD i 0)).order : Int) ∧
      ¬hasType1Conflict conflicts v (ws.getD i 0) = true
  · rw [if_pos hC]
    dsimp only
    have hwprev : ws.getD i 0 ∈ prevLayer := hws _ (getD_mem hi)
    have hwP : ws.getD i 0 ∈ P := hprevP _ hwprev
    have hvw : v ≠ ws.getD i 0 := fun h => hvprev (h ▸ hwprev)
    have hav : align g v = v := hC.1
    have hlw : align g (ws.getD i 0) = root g (ws.getD i 0) := by
      by_contra hne
      have h1 : ((g.label (ws.getD i 0)).order : Int) ≤ p := hInv.prevBound _ hwprev hne
      have h2 : p < ((g.label (ws.getD i 0)).order : Int) := hC.2.1
      omega
    obtain ⟨chains, hcore⟩ := hInv.core
    obtain ⟨chains2, hcore2⟩ := merge_core hP hcore hvP hwP hvw hav hlw
    set g2 := (g.setAlign (ws.getD i 0) v).setAlignRoot v ((g.label (ws.getD i 0)).root)
      with hg2
    have hal2 : ∀ n, align g2 n =
        if n = v then root g (ws.getD i 0) else
          if n = ws.getD i 0 then v else align g n := by
      intro n
      rw [hg2, align_setAlignRoot, align_setAlign]
      rfl
    have hro2 : ∀ n, root g2 n = if n = v then root g (ws.getD i 0) else root g n := by
      intro n
      rw [hg2, root_setAlignRoot, root_setAlign]
      rfl
    have hord2 : ∀ n, (g2.label n).order = (g.label n).order := by
      intro n
      rw [hg2, order_setAlignRoot, order_setAlign]
    refine ⟨⟨⟨chains2, hcore2⟩, ?_, ?_, ?_⟩, ?_, ?_⟩
    · intro n hUn
      have hnv : n ≠ v := fun h => hUv (h ▸ hUn)
      have hnw : n ≠ ws.getD i 0 := fun h => hUprev _ hwprev (h ▸ hUn)
      rw [hal2 n, if_neg hnv, if_neg hnw, hro2 n, if_neg hnv]
      exact hInv.untouched n hUn
    · intro n hDn
      have hnv : n ≠ v := fun h => hDv (h ▸ hDn)
      have hnw : n ≠ ws.getD i 0 := fun h => hDprev _ hwprev (h ▸ hDn)
      rw [hal2 n, if_neg hnv, if_neg hnw, hro2 n, if_neg hnv]
      exact hInv.lasts n hDn
    · intro n hnprev hne
      rw [hord2 n]
      by_cases hnw : n = ws.getD i 0
      · rw [hnw]
      · have hnv : n ≠ v := fun h => hvprev (h ▸ hnprev)
        rw [hal2 n, if_neg hnv, if_neg hnw, hro2 n, if_neg hnv] at hne
        have h1 : ((g.label n).order : Int) ≤ p := hInv.prevBound n hnprev hne
        have h2 : p < ((g.label (ws.getD i 0)).order : Int) := hC.2.1
        omega
    · rw [hal2 v, if_pos rfl, hro2 v, if_pos rfl]
    · show p ≤ ((g.label (ws.getD i 0)).order : Int)
      have h2 : p < ((g.label (ws.getD i 0)).order : Int) := hC.2.1
      omega
  · rw [if_neg hC]
    exact ⟨hInv, hveq, le_refl p⟩

theorem LInv_mono {g : Graph} {P prevLayer : List NodeId} {U U2 D D2 : NodeId → Prop}
    {p : Int} (h : LInv g P prevLayer U D p)
    (hU : ∀ n, U2 n → U n) (hD : ∀ n, D2 n → D n) : LInv g P prevLayer U2 D2 p :=
  ⟨h.core, fun n hn => h.untouched n (hU n hn), fun n hn => h.lasts n (hD n hn),
    h.prevBound⟩

theorem tryCandidate_fold_inv (conflicts : ConflictSet) (v : NodeId) (ws : List NodeId)
    (P prevLayer : List NodeId) (U D : NodeId → Prop) (hP : P.Nodup)
    (hws : ∀ n ∈ ws, n ∈ prevLayer)
    (hprevP : ∀ n ∈ prevLayer, n ∈ P) (hvP : v ∈ P)
    (hvprev : v ∉ prevLayer)
    (hUv : ¬U v) (hUprev : ∀ n ∈ prevLayer, ¬U n)
    (hDv : ¬D v) (hDprev : ∀ n ∈ prevLayer, ¬D n) :
    ∀ (idxs : List Nat), (∀ i ∈ idxs, i < ws.length) → ∀ (st : Graph × Int),
      LInv st.1 P prevLayer U D st.2 → align st.1 v = root st.1 v →
      LInv (idxs.foldl (tryCandidate conflicts v ws) st).1 P prevLayer U D
          (idxs.foldl (tryCandidate conflicts v ws) st).2 ∧
        align (idxs.foldl (tryCandidate conflicts v ws) st).1 v =
          root (idxs.foldl (tryCandidate conflicts v ws) st).1 v := by
  intro idxs
  induction idxs with
  | nil => intro _ st h1 h2; exact ⟨h1, h2⟩
  | cons i idxs ih =>
    intro hbound st h1 h2
    rw [List.foldl_cons]
    obtain ⟨h1x, h2x, _⟩ := tryCandidate_inv conflicts v ws P prevLayer U D hP hws
      hprevP hvP hvprev hUv hUprev hDv hDprev st i
      (hbound i (List.mem_cons_self _ _)) h1 h2
    exact ih (fun j hj => hbound j (List.mem_cons_of_mem _ hj)) _ h1x h2x

theorem alignNode_inv (conflicts : ConflictSet) (neighborFn : NodeId → List NodeId)
    (v : NodeId) (P prevLayer : List NodeId) (U D : NodeId → Prop) (hP : P.Nodup)
    (hws : ∀ n ∈ neighborFn v, n ∈ prevLayer)
    (hprevP : ∀ n ∈ prevLayer, n ∈ P) (hvP : v ∈ P)
    (hvprev : v ∉ prevLayer)
    (hUv : ¬U v) (hUprev : ∀ n ∈ prevLayer, ¬U n)
    (hDv : ¬D v) (hDprev : ∀ n ∈ prevLayer, ¬D n)
    (st : Graph × Int)
    (h1 : LInv st.1 P prevLayer U D st.2) (h2 : align st.1 v = root st.1 v) :
    LInv (alignNode conflicts neighborFn st v).1 P prevLayer U D
        (alignNode conflicts neighborFn st v).2 ∧
      align (alignNode conflicts neighborFn st v).1 v =
        root (alignNode conflicts neighborFn st v).1 v := by
  unfold alignNode
  dsimp only
  by_cases h : (neighborFn v).length ≠ 0
  · rw [if_pos h]
    refine tryCandidate_fold_inv conflicts v (neighborFn v) P prevLayer U D hP hws
      hprevP hvP hvprev hUv hUprev hDv hDprev _ ?_ st h1 h2
    intro i hi
    obtain ⟨hi1, hi2⟩ := List.mem_range'_1.1 hi
    have hd1 : ((neighborFn v).length - 1) / 2 ≤ (neighborFn v).length / 2 :=
      Nat.div_le_div_right (Nat.sub_le _ _)
    have hd2 : (neighborFn v).length / 2 < (neighborFn v).length :=
      Nat.div_lt_self (Nat.pos_of_ne_zero h) (by omega)
    omega
  · rw [if_neg h]
    exact ⟨h1, h2⟩

theorem layer_fold_inv (conflicts : ConflictSet) (neighborFn : NodeId → List NodeId)
    (P flat prevLayer later layer : List NodeId) (hP : P.Nodup)
    (hlayerP : ∀ n ∈ layer, n ∈ P)
    (hprevP : ∀ n ∈ prevLayer, n ∈ P)
    (hnb : ∀ n ∈ layer, ∀ m ∈ neighborFn n, m ∈ prevLayer)
    (hlayernd : layer.Nodup)
    (hlayerflat : ∀ n ∈ layer, n ∈ flat)
    (hprevflat : ∀ n ∈ prevLayer, n ∈ flat)
    (hprevlayer : ∀ n ∈ prevLayer, n ∉ layer)
    (hprevlater : ∀ n ∈ prevLayer, n ∉ later)
    (hlayerlater : ∀ n ∈ layer, n ∉ later) :
    ∀ (rest done : List NodeId), layer = done ++ rest →
      ∀ (st : Graph × Int),
        LInv st.1 P prevLayer
          (fun n => n ∈ rest ∨ n ∈ later ∨ (n ∈ P ∧ n ∉ flat))
          (fun n => n ∈ done) st.2 →
        LInv (rest.foldl (alignNode conflicts neighborFn) st).1 P prevLayer
          (fun n => n ∈ later ∨ (n ∈ P ∧ n ∉ flat))
          (fun n => n ∈ layer)
          (rest.foldl (alignNode conflicts neighborFn) st).2 := by
  intro rest
  induction rest with
  | nil =>
    intro done heq st h
    rw [List.foldl_nil]
    have hdl : done = layer := by rw [heq, List.append_nil]
    refine LInv_mono h ?_ ?_
    · intro n hn
      exact Or.inr hn
    · intro n hn
      rw [hdl]
      exact hn
  | cons v rest2 ih =>
    intro done heq st h
    rw [List.foldl_cons]
    have hvlayer : v ∈ layer := by
      rw [heq]
      exact List.mem_append.2 (Or.inr (List.mem_cons_self _ _))
    have hnd2 : (done ++ v :: rest2).Nodup := by rw [← heq]; exact hlayernd
    have hvdone : v ∉ done := by
      intro hvd
      exact (List.nodup_append.1 hnd2).2.2 hvd (List.mem_cons_self _ _)
    have hvrest2 : v ∉ rest2 :=
      (List.nodup_cons.1 (List.nodup_append.1 hnd2).2.1).1
    have hrest2layer : ∀ n ∈ rest2, n ∈ layer := by
      intro n hn
      rw [heq]
      exact List.mem_append.2 (Or.inr (List.mem_cons_of_mem _ hn))
    have hdonelayer : ∀ n ∈ done, n ∈ layer := by
      intro n hn
      rw [heq]
      exact List.mem_append.2 (Or.inl hn)
    have hveq : align st.1 v = root st.1 v := by
      obtain ⟨ha, hr⟩ := h.untouched v (Or.inl (List.mem_cons_self _ _))
      rw [ha, hr]
    have hIn : LInv st.1 P prevLayer
        (fun n => n ∈ rest2 ∨ n ∈ later ∨ (n ∈ P ∧ n ∉ flat))
        (fun n => n ∈ done) st.2 := by
      refine LInv_mono h ?_ (fun n hn => hn)
      intro n hn
      rcases hn with h1 | h1
      · exact Or.inl (List.mem_cons_of_mem _ h1)
      · exact Or.inr h1
    obtain ⟨h1x, h2x⟩ := alignNode_inv conflicts neighborFn v P prevLayer
      (fun n => n ∈ rest2 ∨ n ∈ later ∨ (n ∈ P ∧ n ∉ flat))
      (fun n => n ∈ done) hP
      (hnb v hvlayer) hprevP (hlayerP v hvlayer)
      (fun hvp => hprevlayer v hvp hvlayer)
      (by
        rintro (h1 | h1 | h1)
        · exact hvrest2 h1
        · exact hlayerlater v hvlayer h1
        · exact h1.2 (hlayerflat v hvlayer))
      (by
        intro n hn
        rintro (h1 | h1 | h1)
        · exact hprevlayer n hn (hrest2layer n h1)
        · exact hprevlater n hn h1
        · exact h1.2 (hprevflat n hn))
      hvdone
      (fun n hn hd => hprevlayer n hn (hdonelayer n hd))
      st hIn hveq
    have h1y : LInv (alignNode conflicts neighborFn st v).1 P prevLayer
        (fun n => n ∈ rest2 ∨ n ∈ later ∨ (n ∈ P ∧ n ∉ flat))
        (fun n => n ∈ done ++ [v]) (alignNode conflicts neighborFn st v).2 := by
      refine ⟨h1x.core, h1x.untouched, ?_, h1x.prevBound⟩
      intro n hn
      rcases List.mem_append.1 hn with h1 | h1
      · exact h1x.lasts n h1
      · have : n = v := by simpa using h1
        rw [this]
        exact h2x
    exact ih (done ++ [v]) (by simp [heq]) _ h1y

theorem getD_append_len (pre : List (List NodeId)) (l : List NodeId)
    (suf : List (List NodeId)) : (pre ++ l :: suf).getD pre.length [] = l := by
  induction pre with
  | nil => rfl
  | cons a pre ih =>
    rw [List.cons_append, List.length_cons, List.getD_cons_succ]
    exact ih

theorem getD_pred_append (pre : List (List NodeId)) (l : List NodeId)
    (suf : List (List NodeId)) (h : pre ≠ []) :
    (pre ++ l :: suf).getD (pre.length - 1) [] = pre.getLastD [] := by
  induction pre with
  | nil => exact absurd rfl h
  | cons a pre ih =>
    cases pre with
    | nil => rfl
    | cons b pre2 =>
      have hlen : (a :: b :: pre2).length - 1 = ((b :: pre2).length - 1) + 1 := by
        simp
      rw [List.cons_append, hlen, List.getD_cons_succ,
        ih (List.cons_ne_nil _ _), List.getLastD_cons, List.getLastD_cons,
        List.getLastD_cons]

theorem mem_getLastD_flatten :
    ∀ (pre : List (List NodeId)) (n : NodeId), n ∈ pre.getLastD [] → n ∈ pre.flatten := by
  intro pre
  induction pre with
  | nil => intro n hn; exact absurd hn (List.not_mem_nil n)
  | cons a t ih =>
    intro n hn
    cases t with
    | nil =>
      rw [List.flatten_cons, List.flatten_nil, List.append_nil]
      exact hn
    | cons b t2 =>
      rw [List.getLastD_cons, List.getLastD_cons] at hn
      have hn2 : n ∈ (b :: t2).getLastD [] := by
        rw [List.getLastD_cons]
        exact hn
      rw [List.flatten_cons]
      exact List.mem_append.2 (Or.inr (ih n hn2))

theorem layers_fold_inv (conflicts : ConflictSet) (neighborFn : NodeId → List NodeId)
    (P : List NodeId) (layering : List (List NodeId)) (hP : P.Nodup)
    (hflat : layering.flatten.Nodup)
    (hsub : ∀ l ∈ layering, ∀ n ∈ l, n ∈ P)
    (hnb : ∀ j, j < layering.length → ∀ v ∈ layering.getD j [], ∀ w ∈ neighborFn v,
      0 < j ∧ w ∈ layering.getD (j - 1) []) :
    ∀ (suf pre : List (List NodeId)), layering = pre ++ suf →
      ∀ g : Graph,
        (∃ chains, CoreInv g P chains) →
        (∀ n, (n ∈ suf.flatten ∨ (n ∈ P ∧ n ∉ layering.flatten)) →
          align g n = n ∧ root g n = n) →
        (∀ n ∈ pre.getLastD [], align g n = root g n) →
        (∃ chains, CoreInv
            (suf.foldl (fun gg layer =>
              (layer.foldl (alignNode conflicts neighborFn) (gg, -1)).1) g) P chains) ∧
          (∀ n, (n ∈ P ∧ n ∉ layering.flatten) →
            align (suf.foldl (fun gg layer =>
                (layer.foldl (alignNode conflicts neighborFn) (gg, -1)).1) g) n = n ∧
              root (suf.foldl (fun gg layer =>
                (layer.foldl (alignNode conflicts neighborFn) (gg, -1)).1) g) n = n) := by
  intro suf
  induction suf with
  | nil =>
    intro pre heq g hcore hunt hlast
    rw [List.foldl_nil]
    exact ⟨hcore, fun n hn => hunt n (Or.inr hn)⟩
  | cons layer suf2 ih =>
    intro pre heq g hcore hunt hlast
    rw [List.foldl_cons]
    have hflat2 : layering.flatten = pre.flatten ++ (layer ++ suf2.flatten) := by
      rw [heq, List.flatten_append, List.flatten_cons]
    have hndparts : (pre.flatten ++ (layer ++ suf2.flatten)).Nodup := by
      rw [← hflat2]
      exact hflat
    obtain ⟨hndpre, hndrest, hdisjpre⟩ := List.nodup_append.1 hndparts
    obtain ⟨hndlayer, hndsuf2, hdisjlayer⟩ := List.nodup_append.1 hndrest
    have hprevpre : ∀ n ∈ pre.getLastD [], n ∈ pre.flatten :=
      fun n hn => mem_getLastD_flatten pre n hn
    have hlayermem : layer ∈ layering := by
      rw [heq]
      exact List.mem_append.2 (Or.inr (List.mem_cons_self _ _))
    have hlayerP : ∀ n ∈ layer, n ∈ P := hsub layer hlayermem
    have hprevP : ∀ n ∈ pre.getLastD [], n ∈ P := by
      intro n hn
      obtain ⟨l, hl, hnl⟩ := List.mem_flatten.1 (hprevpre n hn)
      exact hsub l (by rw [heq]; exact List.mem_append.2 (Or.inl hl)) n hnl
    have hnb2 : ∀ n ∈ layer, ∀ m ∈ neighborFn n, m ∈ pre.getLastD [] := by
      intro n hn m hm
      have hjlt : pre.length < layering.length := by
        rw [heq, List.length_append]
        simp
      have hgetd : layering.getD pre.length [] = layer := by
        rw [heq]
        exact getD_append_len pre layer suf2
      obtain ⟨hpos, hw⟩ := hnb pre.length hjlt n (by rw [hgetd]; exact hn) m hm
      have hprene : pre ≠ [] := by
        intro hc
        rw [hc] at hpos
        simp at hpos
      have hgetd2 : layering.getD (pre.length - 1) [] = pre.getLastD [] := by
        rw [heq]
        exact getD_pred_append pre layer suf2 hprene
      rw [← hgetd2]
      exact hw
    have hlayerflat : ∀ n ∈ layer, n ∈ layering.flatten := by
      intro n hn
      rw [hflat2]
      exact List.mem_append.2 (Or.inr (List.mem_append.2 (Or.inl hn)))
    have hprevflat : ∀ n ∈ pre.getLastD [], n ∈ layering.flatten := by
      intro n hn
      rw [hflat2]
      exact List.mem_append.2 (Or.inl (hprevpre n hn))
    have hprevlayer : ∀ n ∈ pre.getLastD [], n ∉ layer := by
      intro n hn hnl
      exact hdisjpre (hprevpre n hn) (List.mem_append.2 (Or.inl hnl))
    have hprevlater : ∀ n ∈ pre.getLastD [], n ∉ suf2.flatten := by
      intro n hn hnl
      exact hdisjpre (hprevpre n hn) (List.mem_append.2 (Or.inr hnl))
    have hlayerlater : ∀ n ∈ layer, n ∉ suf2.flatten := fun n hn hnl => hdisjlayer hn hnl
    have hInv0 : LInv g P (pre.getLastD [])
        (fun n => n ∈ layer ∨ n ∈ suf2.flatten ∨ (n ∈ P ∧ n ∉ layering.flatten))
        (fun n => n ∈ ([] : List NodeId)) (-1) := by
      refine ⟨hcore, ?_, ?_, ?_⟩
      · intro n hn
        apply hunt
        rcases hn with h1 | h1 | h1
        · exact Or.inl (by rw [List.flatten_cons]; exact List.mem_append.2 (Or.inl h1))
        · exact Or.inl (by rw [List.flatten_cons]; exact List.mem_append.2 (Or.inr h1))
        · exact Or.inr h1
      · intro n hn
        exact absurd hn (List.not_mem_nil n)
      · intro n hn hne
        exact absurd (hlast n hn) hne
    have hstep := layer_fold_inv conflicts neighborFn P layering.flatten
      (pre.getLastD []) suf2.flatten layer hP hlayerP hprevP hnb2 hndlayer
      hlayerflat hprevflat hprevlayer hprevlater hlayerlater layer [] rfl
      (g, -1) hInv0
    refine ih (pre ++ [layer]) (by rw [heq, List.append_assoc]; rfl)
      (layer.foldl (alignNode conflicts neighborFn) (g, -1)).1 hstep.core ?_ ?_
    · intro n hn
      apply hstep.untouched
      rcases hn with h1 | h1
      · exact Or.inl h1
      · exact Or.inr h1
    · intro n hn
      rw [List.getLastD_concat] at hn
      exact hstep.lasts n hn

theorem init_fold_align_root :
    ∀ (l : List NodeId) (g : Graph) (n : NodeId),
      align (l.foldl (fun gg v => gg.setAlignRoot v v) g) n =
          (if n ∈ l then n else align g n) ∧
        root (l.foldl (fun gg v => gg.setAlignRoot v v) g) n =
          (if n ∈ l then n else root g n) := by
  intro l
  induction l with
  | nil =>
    intro g n
    rw [List.foldl_nil]
    constructor <;> rw [if_neg (List.not_mem_nil n)]
  | cons v l ih =>
    intro g n
    rw [List.foldl_cons]
    obtain ⟨iha, ihr⟩ := ih (g.setAlignRoot v v) n
    by_cases hnl : n ∈ l
    · simp [iha, ihr, hnl]
    · by_cases hnv : n = v
      · subst hnv
        simp [iha, ihr, hnl, align_setAlignRoot, root_setAlignRoot]
      · simp [iha, ihr, hnl, hnv, align_setAlignRoot, root_setAlignRoot]

theorem singleton_chains_flatten :
    ∀ (P : List NodeId),
      (((P.map (fun v => ((v, []) : NodeId × List NodeId))).map chainMembers).flatten) = P := by
  intro P
  induction P with
  | nil => rfl
  | cons v P ih =>
    rw [List.map_cons, List.map_cons, List.flatten_cons, ih]
    rfl

theorem init_coreInv (g : Graph) :
    CoreInv (g.nodeIds.foldl (fun gg v => gg.setAlignRoot v v) g) g.nodeIds
      (g.nodeIds.map (fun v => ((v, []) : NodeId × List NodeId))) := by
  constructor
  · rw [singleton_chains_flatten]
  · intro c hc
    obtain ⟨v, hv, rfl⟩ := List.mem_map.1 hc
    obtain ⟨ha, hr⟩ := init_fold_align_root g.nodeIds g v
    constructor
    · show align _ v = v
      rw [ha, if_pos hv]
    · intro n hn
      have hnv : n = v := by simpa [chainMembers] using hn
      rw [hnv]
      show root _ v = v
      obtain ⟨_, hr2⟩ := init_fold_align_root g.nodeIds g v
      rw [hr2, if_pos hv]

theorem core_block_char {g : Graph} {P : List NodeId}
    {chains : List (NodeId × List NodeId)} (hcore : CoreInv g P chains)
    (hP : P.Nodup) {c : NodeId × List NodeId} (hc : c ∈ chains) {v : NodeId}
    (hv : v ∈ chainMembers c) :
    ∀ u ∈ P, (root g u = root g v ↔ u ∈ chainMembers c) := by
  have hrv : root g v = c.1 := (hcore.2 c hc).2 v hv
  intro u hu
  constructor
  · intro hru
    obtain ⟨c2, hc2, hu2⟩ := exists_chain_of_mem hcore hu
    have hru2 : root g u = c2.1 := (hcore.2 c2 hc2).2 u hu2
    have h12 : c2.1 = c.1 := by rw [← hru2, hru, hrv]
    have hm1 : c.1 ∈ chainMembers c2 := by
      rw [← h12]
      exact List.mem_cons_self _ _
    have hm2 : c.1 ∈ chainMembers c := List.mem_cons_self _ _
    have hceq : c2 = c := chains_share hcore hP hc2 hc hm1 hm2
    rw [← hceq]
    exact hu2
  · intro humem
    rw [(hcore.2 c hc).2 u humem, hrv]

theorem blockSize_eq_members {g : Graph} {P : List NodeId}
    {chains : List (NodeId × List NodeId)} (hcore : CoreInv g P chains)
    (hP : P.Nodup) {c : NodeId × List NodeId} (hc : c ∈ chains) {v : NodeId}
    (hv : v ∈ chainMembers c) :
    blockSize g P v = (chainMembers c).length := by
  have hchar := core_block_char hcore hP hc hv
  have hperm : (P.filter (fun u => root g u == root g v)).Perm (chainMembers c) := by
    rw [List.perm_ext_iff_of_nodup (hP.filter _) (chain_members_nodup hcore hP hc)]
    intro u
    rw [List.mem_filter]
    constructor
    · rintro ⟨hu, hq⟩
      exact (hchar u hu).1 (beq_iff_eq.1 hq)
    · intro hu
      have huP : u ∈ P := chain_member_mem_P hcore hc hu
      exact ⟨huP, beq_iff_eq.2 ((hchar u huP).2 hu)⟩
  exact hperm.length_eq

theorem core_conclusions {g : Graph} {P : List NodeId}
    {chains : List (NodeId × List NodeId)} (hcore : CoreInv g P chains)
    (hP : P.Nodup) {v : NodeId} (hv : v ∈ P) :
    align g v ∈ P ∧
      (∀ k, root g ((align g)^[k] v) = root g v) ∧
      root g (root g v) = root g v ∧
      (∃ k, k < blockSize g P v ∧ (align g)^[k] v = root g v) ∧
      (align g)^[blockSize g P v] v = v ∧
      (∀ k, 0 < k → k < blockSize g P v → (align g)^[k] v ≠ v) ∧
      (∀ u ∈ P, root g u = root g v →
        ∃ k, k < blockSize g P v ∧ (align g)^[k] v = u) ∧
      (∀ u ∈ P, align g u = align g v → u = v) ∧
      (align g v = v → root g v = v ∧ blockSize g P v = 1) := by
  obtain ⟨c, hc, hvm⟩ := exists_chain_of_mem hcore hv
  have hok := hcore.2 c hc
  have hlinks : ChainLinks (align g) c.1 c.1 c.2 := hok.1
  have hnd := chain_members_nodup hcore hP hc
  have hbs : blockSize g P v = (chainMembers c).length :=
    blockSize_eq_members hcore hP hc hvm
  obtain ⟨i, hi, hgi⟩ := mem_getD_index hvm
  have hnpos : 0 < (chainMembers c).length := chainMembers_length_pos c
  have hiter := chainLinks_iterate hlinks
  have hrv : root g v = c.1 := hok.2 v hvm
  have hrootmem : c.1 ∈ chainMembers c := List.mem_cons_self _ _
  refine ⟨?_, ?_, ?_, ?_, ?_, ?_, ?_, ?_, ?_⟩
  · have h := hiter 1 i hi
    rw [Function.iterate_one, hgi] at h
    rw [h]
    exact chain_member_mem_P hcore hc (getD_mem (Nat.mod_lt _ hnpos))
  · intro k
    have h := hiter k i hi
    rw [hgi] at h
    rw [h, hok.2 _ (getD_mem (Nat.mod_lt _ hnpos)), hrv]
  · rw [hrv]
    exact hok.2 c.1 hrootmem
  · refine ⟨((chainMembers c).length - i) % (chainMembers c).length,
      by rw [hbs]; exact Nat.mod_lt _ hnpos, ?_⟩
    have h := hiter (((chainMembers c).length - i) % (chainMembers c).length) i hi
    rw [hgi] at h
    rw [h, Nat.add_mod_mod]
    have he : i + ((chainMembers c).length - i) = (chainMembers c).length := by omega
    rw [he, Nat.mod_self, hrv]
    exact List.getD_cons_zero
  · have h := hiter ((chainMembers c).length) i hi
    rw [Nat.add_mod_right, Nat.mod_eq_of_lt hi, hgi] at h
    rw [hbs]
    exact h
  · intro k hk0 hkn hcontra
    rw [hbs] at hkn
    have h := hiter k i hi
    rw [hgi, hcontra] at h
    have heq : (chainMembers c).getD ((i + k) % (chainMembers c).length) 0 =
        (chainMembers c).getD i 0 := by
      rw [← h, hgi]
    have hieq : (i + k) % (chainMembers c).length = i :=
      nodup_getD_inj hnd (Nat.mod_lt _ hnpos) hi heq
    by_cases hlt : i + k < (chainMembers c).length
    · rw [Nat.mod_eq_of_lt hlt] at hieq
      omega
    · rw [Nat.mod_eq_sub_mod (by omega),
        Nat.mod_eq_of_lt
          (by omega : i + k - (chainMembers c).length < (chainMembers c).length)] at hieq
      omega
  · intro u hu hru
    have hum : u ∈ chainMembers c := (core_block_char hcore hP hc hvm u hu).1 hru
    obtain ⟨j, hj, hgj⟩ := mem_getD_index hum
    refine ⟨((chainMembers c).length + j - i) % (chainMembers c).length,
      by rw [hbs]; exact Nat.mod_lt _ hnpos, ?_⟩
    have h := hiter (((chainMembers c).length + j - i) % (chainMembers c).length) i hi
    rw [hgi] at h
    rw [h, Nat.add_mod_mod]
    have he : i + ((chainMembers c).length + j - i) = (chainMembers c).length + j := by
      omega
    rw [he, Nat.add_mod_left, Nat.mod_eq_of_lt hj]
    exact hgj
  · intro u hu hau
    obtain ⟨c2, hc2, hum⟩ := exists_chain_of_mem hcore hu
    have hok2 := hcore.2 c2 hc2
    have hiter2 := chainLinks_iterate hok2.1
    have hnpos2 : 0 < (chainMembers c2).length := chainMembers_length_pos c2
    obtain ⟨j, hj, hgj⟩ := mem_getD_index hum
    have hau_mem : align g u ∈ chainMembers c2 := by
      have h := hiter2 1 j hj
      rw [Function.iterate_one, hgj] at h
      rw [h]
      exact getD_mem (Nat.mod_lt _ hnpos2)
    have hav_mem : align g u ∈ chainMembers c := by
      have h := hiter 1 i hi
      rw [Function.iterate_one, hgi] at h
      rw [hau, h]
      exact getD_mem (Nat.mod_lt _ hnpos)
    have hceq : c2 = c := chains_share hcore hP hc2 hc hau_mem hav_mem
    subst hceq
    have h1 := hiter 1 j hj
    rw [Function.iterate_one, hgj] at h1
    have h2 := hiter 1 i hi
    rw [Function.iterate_one, hgi] at h2
    have heq : (chainMembers c2).getD ((j + 1) % (chainMembers c2).length) 0 =
        (chainMembers c2).getD ((i + 1) % (chainMembers c2).length) 0 := by
      rw [← h1, ← h2, hau]
    have hje : (j + 1) % (chainMembers c2).length = (i + 1) % (chainMembers c2).length :=
      nodup_getD_inj hnd (Nat.mod_lt _ hnpos) (Nat.mod_lt _ hnpos) heq
    have hji : j = i := by
      by_cases hj1 : j + 1 < (chainMembers c2).length
      · by_cases hi1 : i + 1 < (chainMembers c2).length
        · rw [Nat.mod_eq_of_lt hj1, Nat.mod_eq_of_lt hi1] at hje
          omega
        · have hie : i + 1 = (chainMembers c2).length := by omega
          rw [Nat.mod_eq_of_lt hj1, hie, Nat.mod_self] at hje
          omega
      · have hje2 : j + 1 = (chainMembers c2).length := by omega
        by_cases hi1 : i + 1 < (chainMembers c2).length
        · rw [hje2, Nat.mod_self, Nat.mod_eq_of_lt hi1] at hje
          omega
        · omega
    rw [← hgj, ← hgi, hji]
  · intro ha
    have hceq : c = (v, []) := chain_eq_singleton hcore hP hc hvm ha
    constructor
    · rw [hrv, hceq]
    · rw [hbs, hceq]
      rfl

theorem verticalAlignment_coreInv (g : Graph) (layering : List (List NodeId))
    (conflicts : ConflictSet) (neighborFn : NodeId → List NodeId)
    (hnd : g.nodeIds.Nodup)
    (hflat : layering.flatten.Nodup)
    (hsub : ∀ l ∈ layering, ∀ n ∈ l, n ∈ g.nodeIds)
    (hnb : ∀ j, j < layering.length → ∀ v ∈ layering.getD j [], ∀ w ∈ neighborFn v,
      0 < j ∧ w ∈ layering.getD (j - 1) []) :
    (∃ chains,
        CoreInv (verticalAlignment g layering conflicts neighborFn) g.nodeIds chains) ∧
      ∀ n ∈ g.nodeIds, n ∉ layering.flatten →
        align (verticalAlignment g layering conflicts neighborFn) n = n ∧
          root (verticalAlignment g layering conflicts neighborFn) n = n := by
  have hunt : ∀ n,
      (n ∈ layering.flatten ∨ (n ∈ g.nodeIds ∧ n ∉ layering.flatten)) →
      align (g.nodeIds.foldl (fun gg v => gg.setAlignRoot v v) g) n = n ∧
        root (g.nodeIds.foldl (fun gg v => gg.setAlignRoot v v) g) n = n := by
    intro n hn
    have hnP : n ∈ g.nodeIds := by
      rcases hn with h1 | h1
      · obtain ⟨l, hl, hnl⟩ := List.mem_flatten.1 h1
        exact hsub l hl n hnl
      · exact h1.1
    obtain ⟨ha, hr⟩ := init_fold_align_root g.nodeIds g n
    rw [ha, hr, if_pos hnP, if_pos hnP]
    exact ⟨rfl, rfl⟩
  have hlast : ∀ n ∈ ([] : List (List NodeId)).getLastD [],
      align (g.nodeIds.foldl (fun gg v => gg.setAlignRoot v v) g) n =
        root (g.nodeIds.foldl (fun gg v => gg.setAlignRoot v v) g) n := by
    intro n hn
    exact absurd hn (List.not_mem_nil n)
  have h := layers_fold_inv conflicts neighborFn g.nodeIds layering hnd hflat hsub hnb
    layering [] rfl (g.nodeIds.foldl (fun gg v => gg.setAlignRoot v v) g)
    ⟨_, init_coreInv g⟩ hunt hlast
  exact ⟨h.1, fun n hn1 hn2 => h.2 n ⟨hn1, hn2⟩⟩

/-- C2: after verticalAlignment returns, the align fields partition the node
set into disjoint cycles: align stays inside the node set, every node reached
by iterating align from v keeps the root of v, the root of v is itself a
fixed point of root and is reached from v by iterating align, iterating align
blockSize-many times returns to v and no smaller positive number of steps
does, two nodes with the same root lie on the same align cycle, align is
injective on the node set, a node with align v = v is a singleton block with
root v = v and block size one, and nodes belonging to no layer keep
root = align = self. -/
theorem claimC2_align_cycles (g : Graph) (layering : List (List NodeId))
    (conflicts : ConflictSet) (neighborFn : NodeId → List NodeId)
    (hnd : g.nodeIds.Nodup)
    (hflat : layering.flatten.Nodup)
    (hsub : ∀ l ∈ layering, ∀ n ∈ l, n ∈ g.nodeIds)
    (hnb : ∀ j, j < layering.length → ∀ v ∈ layering.getD j [], ∀ w ∈ neighborFn v,
      0 < j ∧ w ∈ layering.getD (j - 1) []) :
    ∀ g2, g2 = verticalAlignment g layering conflicts neighborFn →
      ∀ v ∈ g.nodeIds,
        align g2 v ∈ g.nodeIds ∧
          (∀ k, root g2 ((align g2)^[k] v) = root g2 v) ∧
          root g2 (root g2 v) = root g2 v ∧
          (∃ k, k < blockSize g2 g.nodeIds v ∧ (align g2)^[k] v = root g2 v) ∧
          (align g2)^[blockSize g2 g.nodeIds v] v = v ∧
          (∀ k, 0 < k → k < blockSize g2 g.nodeIds v → (align g2)^[k] v ≠ v) ∧
          (∀ u ∈ g.nodeIds, root g2 u = root g2 v →
            ∃ k, k < blockSize g2 g.nodeIds v ∧ (align g2)^[k] v = u) ∧
          (∀ u ∈ g.nodeIds, align g2 u = align g2 v → u = v) ∧
          (align g2 v = v → root g2 v = v ∧ blockSize g2 g.nodeIds v = 1) ∧
          (v ∉ layering.flatten → align g2 v = v ∧ root g2 v = v) := by
  intro g2 hg2 v hv
  subst hg2
  obtain ⟨⟨chains, hcore⟩, huntouched⟩ :=
    verticalAlignment_coreInv g layering conflicts neighborFn hnd hflat hsub hnb
  obtain ⟨h1, h2, h3, h4, h5, h6, h7, h8, h9⟩ := core_conclusions hcore hnd hv
  exact ⟨h1, h2, h3, h4, h5, h6, h7, h8, h9, fun hoff => huntouched v hv hoff⟩

theorem claimC2_witness :
    Gc2.nodeIds.Nodup ∧
      ([[0], [1, 2]] : List (List NodeId)).flatten.Nodup ∧
      (∀ l ∈ ([[0], [1, 2]] : List (List NodeId)), ∀ n ∈ l, n ∈ Gc2.nodeIds) ∧
      (∀ j, j < ([[0], [1, 2]] : List (List NodeId)).length →
        ∀ v ∈ ([[0], [1, 2]] : List (List NodeId)).getD j [], ∀ w ∈ nbf2 v,
          0 < j ∧ w ∈ ([[0], [1, 2]] : List (List NodeId)).getD (j - 1) []) ∧
      (align (verticalAlignment Gc2 [[0], [1, 2]] emptyConflicts nbf2))^[blockSize
          (verticalAlignment Gc2 [[0], [1, 2]] emptyConflicts nbf2) Gc2.nodeIds 1] 1 = 1 :=
  ⟨by decide, by decide, by decide, by decide,
    (claimC2_align_cycles Gc2 [[0], [1, 2]] emptyConflicts nbf2 (by decide) (by decide)
      (by decide) (by decide) _ rfl 1 (by decide)).2.2.2.2.1⟩
